import Mathlib

/-!
# Verification of the periodic-scraper extraction and persistence core

Shallow embedding of the algorithmic core of the repository
(`src/storage.py`, `src/article_scraper.py`) together with theorems
settling the specification claims.

Modelling conventions:

* Python strings are Lean `String`s; character-level work uses `List Char`.
* A pandas cell is `Option String`; `none` models NaN (pandas' null).
  `df.to_csv(..., quoting=csv.QUOTE_ALL)` quotes every field, so the textual
  serialization is lossless on string cells; we therefore model the written
  CSV file at the cell level (`CsvFile`).  `pd.read_csv` converts an empty
  field back to NaN (its default `na_values` include the empty string), which
  is captured by `readCell`.  pandas' numeric type inference on read is not
  modelled (the claims never involve numeric-shaped strings).
* A Python dict is an insertion-ordered association list.
* Fallible Python code returns `Option`; an uncaught Python exception is
  `Except.error ()` at the scope where the source catches it.
-/

/-- A pandas cell: `none` is NaN (the pandas null marker). -/
abbrev Cell := Option String

/-- A Python dict holding one article record (column name to cell),
insertion-ordered as Python dicts are. -/
abbrev Rec := List (String × Cell)

/-- First-match association-list lookup (Python dict lookup; keys are unique
in genuine dicts, so first match is the dict semantics). -/
def alookup {κ α : Type} [DecidableEq κ] (k : κ) : List (κ × α) → Option α
  | [] => none
  | (k', v) :: rest => if k' = k then some v else alookup k rest

/-- `article[k]` for a record.  A record lacking the key would raise
`KeyError` in Python; every theorem below only applies this to records that
carry the key, so the `none` default is never the deciding value. -/
def pyGet (r : Rec) (k : String) : Cell := (alookup k r).getD none

/-- The in-memory table: a Python dict mapping the `url` cell of a record to
the record (`existing_articles` in `storage.py`). -/
abbrev Table := List (Cell × Rec)

/-- The keys (urls) of a table, in insertion order. -/
def tKeys (t : Table) : List Cell := t.map Prod.fst

/-- The values (records) of a table, in insertion order (`dict.values()`). -/
def tVals (t : Table) : List Rec := t.map Prod.snd

/-- A table is well-formed when its keys are distinct and each entry is keyed
by the `url` field of its own record — the invariant maintained by both
`load_existing_articles` and the orchestrator in `scraper.py`. -/
def wfTable (t : Table) : Prop :=
  (tKeys t).Nodup ∧ ∀ p ∈ t, pyGet p.2 "url" = p.1

instance (t : Table) : Decidable (wfTable t) := by
  unfold wfTable; exact inferInstance

/-- `required_columns` in `save_articles`. -/
def requiredColumns : List String :=
  ["title", "author", "content", "source", "url", "date"]

/-- Append the keys of one record to the running column list, keeping first
occurrences only (pandas column-union order for `pd.DataFrame(list_of_dicts)`). -/
def addCols (acc : List String) : List String → List String
  | [] => acc
  | c :: cs => if c ∈ acc then addCols acc cs else addCols (acc ++ [c]) cs

/-- Column set of `pd.DataFrame(rs)`: union of the records' keys in first
appearance order. -/
def unionCols (rs : List Rec) : List String :=
  rs.foldl (fun acc r => addCols acc (r.map Prod.fst)) []

/-- A pandas DataFrame: column names plus one cell list per record.  A record
missing a column yields NaN there. -/
structure Frame where
  cols : List String
  rows : List (List Cell)
deriving DecidableEq, Repr

/-- `pd.DataFrame(rs)` for a list of record dicts. -/
def dfOfRecords (rs : List Rec) : Frame :=
  ⟨unionCols rs, rs.map fun r => (unionCols rs).map fun c => (alookup c r).getD none⟩

/-- The `for col in required_columns: if col not in df.columns: df[col] = ''`
loop of `save_articles`: a missing column is appended filled with the empty
string. -/
def ensureCols (f : Frame) : List String → Frame
  | [] => f
  | c :: cs =>
    if c ∈ f.cols then ensureCols f cs
    else ensureCols ⟨f.cols ++ [c], f.rows.map fun row => row ++ [some ""]⟩ cs

/-- The written CSV file, at cell granularity.  `QUOTE_ALL` makes the textual
round trip lossless per cell, so the file is its header plus the written
strings. -/
structure CsvFile where
  header : List String
  rows : List (List String)
deriving DecidableEq, Repr

/-- `to_csv` serialization of one cell: NaN is written as the empty field
(default `na_rep`). -/
def writeCell : Cell → String
  | none => ""
  | some s => s

/-- `df.to_csv(path, index=False, quoting=csv.QUOTE_ALL)`. -/
def toCsv (f : Frame) : CsvFile :=
  ⟨f.cols, f.rows.map fun row => row.map writeCell⟩

/-- `pd.read_csv` cell parsing: an empty field becomes NaN (pandas' default
`na_values` contain the empty string). -/
def readCell (s : String) : Cell := if s = "" then none else some s

/-- The DataFrame + required-column fixup + serialization performed by
`save_articles` on the merged record list. -/
def buildFile (rs : List Rec) : CsvFile :=
  toCsv (ensureCols (dfOfRecords rs) requiredColumns)

/-- The `new_articles` list of `save_articles`: the batch records whose url
is absent from the existing table.  This is the only filtering the source
performs — records of the batch are never compared against each other. -/
def freshB (articles : List Rec) (existing : Table) : List Rec :=
  articles.filter fun a => (alookup (pyGet a "url") existing).isNone

/-- `save_articles(articles, csv_path, existing_articles)` from
`src/storage.py`.  `writeOk` models whether `df.to_csv` succeeds; on failure
the exception is caught, the function logs and returns 0.  The result is
(return value, the `existing_articles` dict after the call — the source never
assigns into it — and the file written, if any). -/
def save_articles (articles : List Rec) (existing : Table) (writeOk : Bool) :
    Nat × Table × Option CsvFile :=
  if articles.isEmpty then (0, existing, none)
  else if (freshB articles existing).isEmpty then (0, existing, none)
  else if writeOk then
    ((freshB articles existing).length, existing,
      some (buildFile (tVals existing ++ freshB articles existing)))
  else (0, existing, none)

/-- `existing[row['url']] = row.to_dict()`: Python dict upsert — an existing
key keeps its position with the new value, a new key is appended. -/
def dictInsert (t : Table) (k : Cell) (r : Rec) : Table :=
  if (alookup k t).isSome then t.map fun p => if p.1 = k then (k, r) else p
  else t ++ [(k, r)]

/-- `row.to_dict()` after `pd.read_csv`: the header zipped with the parsed
cells of the row. -/
def rowToRec (hdr : List String) (cells : List String) : Rec :=
  hdr.zip (cells.map readCell)

/-- `load_existing_articles(csv_path)` from `src/storage.py`: an absent file
yields the empty table, otherwise every row is keyed by its parsed `url`
cell, later rows overwriting earlier ones. -/
def load_existing_articles : Option CsvFile → Table
  | none => []
  | some f =>
    (f.rows.map (rowToRec f.header)).foldl (fun t r => dictInsert t (pyGet r "url") r) []

/-- The url cell of a written CSV row, as `load_existing_articles` would
recover it. -/
def rowUrl (hdr : List String) (cells : List String) : Cell :=
  pyGet (rowToRec hdr cells) "url"

/-- The columns `ensureCols` appends to an existing column list `cs` while
processing the required list, in order. -/
def missingCols (cs : List String) : List String → List String
  | [] => []
  | q :: qs => if q ∈ cs then missingCols cs qs else q :: missingCols (cs ++ [q]) qs

/-- Header of the file written for the merged record list `rs`. -/
def ecols (rs : List Rec) : List String :=
  unionCols rs ++ missingCols (unionCols rs) requiredColumns

/-- The cell the written DataFrame holds for record `r` at column `c`:
the record's own cell (NaN when the key is missing) for a genuine data
column, and the empty string for a column added by the required-column
fixup. -/
def fCell (rs : List Rec) (r : Rec) (c : String) : Cell :=
  if c ∈ unionCols rs then (alookup c r).getD none else some ""

/-- A record whose `url` field is a nonempty string — the shape every record
produced by the assembler has. -/
def urlOkB (r : Rec) : Bool :=
  match pyGet r "url" with
  | some u => u ≠ ""
  | none => false

/-- Number of rows of a written file carrying the url cell `u`. -/
def fileCountUrl (f : CsvFile) (u : Cell) : Nat :=
  f.rows.countP fun row => decide (rowUrl f.header row = u)

/-- Number of entries of a table keyed by `u`. -/
def tableCountUrl (t : Table) (u : Cell) : Nat :=
  t.countP fun p => decide (p.1 = u)

/-- Number of records of a batch whose `url` field is `u`. -/
def batchCountUrl (b : List Rec) (u : Cell) : Nat :=
  b.countP fun a => decide (pyGet a "url" = u)

section FrameLemmas

theorem ensureCols_eq (cs : List String) (rows : List (List Cell)) (req : List String) :
    ensureCols ⟨cs, rows⟩ req =
      ⟨cs ++ missingCols cs req,
        rows.map fun row => row ++ (missingCols cs req).map fun _ => some ""⟩ := by
  induction req generalizing cs rows with
  | nil => simp [ensureCols, missingCols]
  | cons q qs ih =>
    by_cases hq : q ∈ cs
    · simp [ensureCols, missingCols, hq, ih]
    · simp only [ensureCols, missingCols, if_neg hq]
      rw [ih]
      refine congrArg₂ _ (by simp) ?_
      simp [List.map_map, Function.comp]

theorem mem_missingCols {c : String} :
    ∀ {cs req : List String}, c ∈ missingCols cs req → c ∉ cs := by
  intro cs req
  induction req generalizing cs with
  | nil => simp [missingCols]
  | cons q qs ih =>
    by_cases hq : q ∈ cs
    · simpa [missingCols, hq] using fun h => ih h
    · intro h
      simp only [missingCols, if_neg hq, List.mem_cons] at h
      rcases h with h | h
      · exact h ▸ hq
      · intro hc
        exact ih h (by simp [hc])

theorem req_subset_append_missingCols {c : String} :
    ∀ (cs : List String) {req : List String}, c ∈ req → c ∈ cs ++ missingCols cs req := by
  intro cs req
  induction req generalizing cs with
  | nil => simp
  | cons q qs ih =>
    intro h
    rcases List.mem_cons.mp h with rfl | h
    · by_cases hq : c ∈ cs
      · simp [hq]
      · simp [missingCols, hq]
    · by_cases hq : q ∈ cs
      · simpa [missingCols, hq] using ih cs h
      · have := ih (cs ++ [q]) h
        simp only [missingCols, if_neg hq]
        simp only [List.mem_append, List.mem_cons, List.mem_singleton] at this ⊢
        tauto

theorem mem_addCols {c : String} :
    ∀ {acc l : List String}, c ∈ addCols acc l ↔ c ∈ acc ∨ c ∈ l := by
  intro acc l
  induction l generalizing acc with
  | nil => simp [addCols]
  | cons x xs ih =>
    by_cases hx : x ∈ acc
    · rw [addCols, if_pos hx, ih]
      constructor
      · tauto
      · rintro (h | h)
        · exact Or.inl h
        · rcases List.mem_cons.mp h with rfl | h
          · exact Or.inl hx
          · exact Or.inr h
    · rw [addCols, if_neg hx, ih]
      simp only [List.mem_append, List.mem_singleton, List.mem_cons]
      tauto

theorem mem_unionCols {c : String} {rs : List Rec} :
    c ∈ unionCols rs ↔ ∃ r ∈ rs, c ∈ r.map Prod.fst := by
  unfold unionCols
  suffices h : ∀ (acc : List String),
      c ∈ rs.foldl (fun acc r => addCols acc (r.map Prod.fst)) acc ↔
        c ∈ acc ∨ ∃ r ∈ rs, c ∈ r.map Prod.fst by
    simpa using h []
  induction rs with
  | nil => simp
  | cons r rs ih =>
    intro acc
    rw [List.foldl_cons, ih, mem_addCols]
    simp only [List.mem_cons]
    constructor
    · rintro ((h | h) | ⟨r', hr', hc⟩)
      · exact Or.inl h
      · exact Or.inr ⟨r, Or.inl rfl, h⟩
      · exact Or.inr ⟨r', Or.inr hr', hc⟩
    · rintro (h | ⟨r', hr' | hr', hc⟩)
      · exact Or.inl (Or.inl h)
      · exact Or.inl (Or.inr (hr' ▸ hc))
      · exact Or.inr ⟨r', hr', hc⟩

/-- The file written by `save_articles` for the merged record list `rs`:
its header and the shape of each row. -/
theorem buildFile_eq (rs : List Rec) :
    buildFile rs =
      ⟨ecols rs, rs.map fun r => (ecols rs).map fun c => writeCell (fCell rs r c)⟩ := by
  unfold buildFile dfOfRecords
  rw [ensureCols_eq]
  unfold toCsv ecols
  refine congrArg₂ _ rfl ?_
  simp only [List.map_map]
  refine List.map_congr_left fun r _ => ?_
  simp only [Function.comp, List.map_append, List.map_map]
  refine congrArg₂ _ ?_ ?_
  · refine List.map_congr_left fun c hc => ?_
    simp [fCell, hc]
  · refine List.map_congr_left fun c hc => ?_
    have : c ∉ unionCols rs := mem_missingCols hc
    simp [fCell, this, writeCell]

theorem alookup_zip_self_map {α : Type} (f : String → α) (c : String) :
    ∀ cs : List String,
      alookup c (cs.zip (cs.map f)) = if c ∈ cs then some (f c) else none := by
  intro cs
  induction cs with
  | nil => simp [alookup]
  | cons x xs ih =>
    by_cases hx : x = c
    · subst hx
      simp [alookup, ih]
    · rw [List.map_cons, List.zip_cons_cons, alookup, if_neg hx, ih]
      simp [List.mem_cons, Ne.symm hx, hx]

/-- Reading back one written row: the record reconstructed by
`load_existing_articles` holds, at each header column, the write/read round
trip of the DataFrame cell. -/
theorem rowToRec_lookup (rs : List Rec) (r : Rec) (c : String) :
    alookup c (rowToRec (ecols rs) ((ecols rs).map fun c => writeCell (fCell rs r c))) =
      if c ∈ ecols rs then some (readCell (writeCell (fCell rs r c))) else none := by
  unfold rowToRec
  rw [List.map_map]
  exact alookup_zip_self_map _ c (ecols rs)

theorem mem_keys_of_alookup {κ α : Type} [DecidableEq κ] {k : κ} {v : α} :
    ∀ {l : List (κ × α)}, alookup k l = some v → k ∈ l.map Prod.fst := by
  intro l
  induction l with
  | nil => simp [alookup]
  | cons p ps ih =>
    intro hl
    rw [alookup] at hl
    by_cases hp : p.1 = k
    · simp [hp]
    · rw [if_neg hp] at hl
      simpa using Or.inr (ih hl)

theorem url_mem_ecols (rs : List Rec) : "url" ∈ ecols rs :=
  req_subset_append_missingCols _ (by simp [requiredColumns])

theorem required_mem_ecols (rs : List Rec) {c : String} (hc : c ∈ requiredColumns) :
    c ∈ ecols rs :=
  req_subset_append_missingCols _ hc

/-- For a record with a nonempty string url that occurs among the merged
records, the url cell survives the write/read round trip. -/
theorem rowUrl_of_urlOk {rs : List Rec} {r : Rec} (hr : r ∈ rs) (h : urlOkB r = true) :
    rowUrl (ecols rs) ((ecols rs).map fun c => writeCell (fCell rs r c)) =
      pyGet r "url" := by
  unfold urlOkB at h
  cases hu : pyGet r "url" with
  | none => rw [hu] at h; simp at h
  | some u =>
    rw [hu] at h
    have hne : u ≠ "" := by simpa using h
    have hkey : "url" ∈ r.map Prod.fst := by
      unfold pyGet at hu
      cases hl : alookup "url" r with
      | none => rw [hl] at hu; simp [Option.getD] at hu
      | some v => exact mem_keys_of_alookup hl
    have hmem : "url" ∈ unionCols rs := mem_unionCols.mpr ⟨r, hr, hkey⟩
    unfold rowUrl pyGet
    rw [rowToRec_lookup, if_pos (url_mem_ecols rs)]
    have : fCell rs r "url" = some u := by
      unfold fCell
      rw [if_pos hmem]
      unfold pyGet at hu
      simpa using hu
    rw [this]
    simp [writeCell, readCell, hne, hu, pyGet]

end FrameLemmas

section DictLemmas

theorem alookup_isSome_iff {κ α : Type} [DecidableEq κ] {k : κ} :
    ∀ {l : List (κ × α)}, (alookup k l).isSome = true ↔ k ∈ l.map Prod.fst := by
  intro l
  induction l with
  | nil => simp [alookup]
  | cons p ps ih =>
    rw [alookup]
    by_cases hp : p.1 = k
    · simp [hp]
    · rw [if_neg hp, List.map_cons, List.mem_cons, ih]
      simp [Ne.symm hp]

theorem tKeys_dictInsert (t : Table) (k : Cell) (r : Rec) :
    tKeys (dictInsert t k r) =
      if (alookup k t).isSome then tKeys t else tKeys t ++ [k] := by
  unfold dictInsert
  by_cases h : (alookup k t).isSome
  · rw [if_pos h, if_pos h]
    unfold tKeys
    rw [List.map_map]
    refine List.map_congr_left fun p _ => ?_
    by_cases hp : p.1 = k
    · simp [Function.comp, hp]
    · simp [Function.comp, hp]
  · rw [if_neg h, if_neg h]
    simp [tKeys]

theorem mem_dictInsert {t : Table} {k : Cell} {r : Rec} {p : Cell × Rec} :
    p ∈ dictInsert t k r → p ∈ t ∨ p = (k, r) := by
  unfold dictInsert
  by_cases h : (alookup k t).isSome
  · rw [if_pos h]
    intro hp
    rcases List.mem_map.mp hp with ⟨q, hq, hfq⟩
    by_cases hqk : q.1 = k
    · rw [if_pos hqk] at hfq
      exact Or.inr hfq.symm
    · rw [if_neg hqk] at hfq
      exact Or.inl (hfq ▸ hq)
  · rw [if_neg h]
    intro hp
    rcases List.mem_append.mp hp with hp | hp
    · exact Or.inl hp
    · exact Or.inr (List.mem_singleton.mp hp)

/-- Keys of the table built by the load fold: exactly the urls of the
processed records (plus those of the accumulator). -/
theorem tKeys_load_foldl {c : Cell} :
    ∀ (rows : List Rec) (init : Table),
      c ∈ tKeys (rows.foldl (fun t r => dictInsert t (pyGet r "url") r) init) ↔
        c ∈ tKeys init ∨ ∃ r ∈ rows, pyGet r "url" = c := by
  intro rows
  induction rows with
  | nil => simp
  | cons r rows ih =>
    intro init
    rw [List.foldl_cons, ih]
    have hk : c ∈ tKeys (dictInsert init (pyGet r "url") r) ↔
        c ∈ tKeys init ∨ pyGet r "url" = c := by
      rw [tKeys_dictInsert]
      by_cases h : (alookup (pyGet r "url") init).isSome
      · rw [if_pos h]
        constructor
        · exact Or.inl
        · rintro (hc | hc)
          · exact hc
          · exact hc ▸ alookup_isSome_iff.mp h
      · rw [if_neg h]
        simp [eq_comm]
    rw [hk]
    simp only [List.mem_cons]
    constructor
    · rintro ((hc | hc) | ⟨r', hr', hc⟩)
      · exact Or.inl hc
      · exact Or.inr ⟨r, Or.inl rfl, hc⟩
      · exact Or.inr ⟨r', Or.inr hr', hc⟩
    · rintro (hc | ⟨r', hr' | hr', hc⟩)
      · exact Or.inl (Or.inl hc)
      · exact Or.inl (Or.inr (hr' ▸ hc))
      · exact Or.inr ⟨r', hr', hc⟩

/-- Entries of the table built by the load fold come from the processed
records (or the accumulator), each keyed by its own url field. -/
theorem mem_load_foldl {p : Cell × Rec} :
    ∀ (rows : List Rec) (init : Table),
      p ∈ rows.foldl (fun t r => dictInsert t (pyGet r "url") r) init →
        p ∈ init ∨ ∃ r ∈ rows, p = (pyGet r "url", r) := by
  intro rows
  induction rows with
  | nil => simp
  | cons r rows ih =>
    intro init hp
    rw [List.foldl_cons] at hp
    rcases ih _ hp with hp' | ⟨r', hr', hpr⟩
    · rcases mem_dictInsert hp' with hp'' | hp''
      · exact Or.inl hp''
      · exact Or.inr ⟨r, List.mem_cons_self r rows, hp''⟩
    · exact Or.inr ⟨r', List.mem_cons_of_mem r hr', hpr⟩

theorem mem_load (p : Cell × Rec) (f : CsvFile)
    (hp : p ∈ load_existing_articles (some f)) :
    ∃ cells ∈ f.rows, p = (pyGet (rowToRec f.header cells) "url", rowToRec f.header cells) := by
  unfold load_existing_articles at hp
  rcases mem_load_foldl _ _ hp with h | ⟨r, hr, hpr⟩
  · simp at h
  · rcases List.mem_map.mp hr with ⟨cells, hc, hrc⟩
    exact ⟨cells, hc, by rw [hpr, ← hrc]⟩

theorem tKeys_load (c : Cell) (f : CsvFile) :
    c ∈ tKeys (load_existing_articles (some f)) ↔
      ∃ cells ∈ f.rows, rowUrl f.header cells = c := by
  unfold load_existing_articles rowUrl
  rw [tKeys_load_foldl]
  simp only [tKeys, List.map_nil, List.not_mem_nil, false_or, List.mem_map]
  constructor
  · rintro ⟨r, ⟨cells, hcells, hrc⟩, hc⟩
    exact ⟨cells, hcells, by rw [hrc, hc]⟩
  · rintro ⟨cells, hcells, hc⟩
    exact ⟨rowToRec f.header cells, ⟨cells, hcells, rfl⟩, hc⟩

end DictLemmas

section CountLemmas

theorem alookup_isSome_of_mem {κ α : Type} [DecidableEq κ] {p : κ × α} :
    ∀ {l : List (κ × α)}, p ∈ l → (alookup p.1 l).isSome = true := by
  intro l
  induction l with
  | nil => simp
  | cons q qs ih =>
    intro hp
    rw [alookup]
    by_cases hq : q.1 = p.1
    · simp [hq]
    · rw [if_neg hq]
      rcases List.mem_cons.mp hp with rfl | hp'
      · exact absurd rfl hq
      · exact ih hp'

theorem fileCountUrl_buildFile (rs : List Rec) (u : Cell)
    (hok : ∀ r ∈ rs, urlOkB r = true) :
    fileCountUrl (buildFile rs) u = batchCountUrl rs u := by
  unfold fileCountUrl batchCountUrl
  rw [buildFile_eq]
  simp only [List.countP_map]
  refine List.countP_congr fun r hr => ?_
  have := rowUrl_of_urlOk hr (hok r hr)
  simp [Function.comp, this]

theorem batchCountUrl_tVals (t : Table) (u : Cell) (hwf : wfTable t) :
    batchCountUrl (tVals t) u = tableCountUrl t u := by
  unfold batchCountUrl tableCountUrl tVals
  rw [List.countP_map]
  refine List.countP_congr fun p hp => ?_
  have := hwf.2 p hp
  simp [Function.comp, this]

theorem countP_eq_of_nodup_le_one {l : List Cell} (h : l.Nodup) (u : Cell) :
    l.countP (fun c => decide (c = u)) ≤ 1 := by
  induction l with
  | nil => simp
  | cons x xs ih =>
    rw [List.nodup_cons] at h
    by_cases hx : x = u
    · rw [List.countP_cons_of_pos _ _ (by simpa using hx)]
      have hz : xs.countP (fun c => decide (c = u)) = 0 := by
        rw [List.countP_eq_zero]
        intro c hc
        simp only [decide_eq_true_eq]
        intro hcu
        exact h.1 (by rw [hx, ← hcu]; exact hc)
      omega
    · rw [List.countP_cons_of_neg _ _ (by simpa using hx)]
      exact ih h.2

theorem tableCountUrl_le_one (t : Table) (u : Cell) (hwf : wfTable t) :
    tableCountUrl t u ≤ 1 := by
  have h : tableCountUrl t u = (tKeys t).countP (fun c => decide (c = u)) := by
    unfold tableCountUrl tKeys
    rw [List.countP_map]
    rfl
  rw [h]
  exact countP_eq_of_nodup_le_one hwf.1 u

theorem tableCountUrl_eq_zero (t : Table) (u : Cell)
    (habs : alookup u t = none) : tableCountUrl t u = 0 := by
  unfold tableCountUrl
  rw [List.countP_eq_zero]
  intro p hp
  simp only [decide_eq_true_eq]
  intro hpu
  have := alookup_isSome_of_mem hp
  rw [hpu, habs] at this
  simp at this

theorem batchCountUrl_freshB (a : List Rec) (t : Table) (u : Cell) :
    batchCountUrl (freshB a t) u =
      if (alookup u t).isSome then 0 else batchCountUrl a u := by
  unfold batchCountUrl freshB
  rw [List.countP_filter]
  by_cases h : (alookup u t).isSome
  · rw [if_pos h, List.countP_eq_zero]
    intro r hr
    simp only [Bool.and_eq_true, decide_eq_true_eq, Option.isNone_iff_eq_none]
    rintro ⟨hru, habs⟩
    rw [hru] at habs
    rw [habs] at h
    simp at h
  · rw [if_neg h]
    refine List.countP_congr fun r hr => ?_
    by_cases hru : pyGet r "url" = u
    · simp [hru, Option.isNone_iff_eq_none, Option.not_isSome_iff_eq_none.mp h]
    · simp [hru]

/-- Inversion of `save_articles`: a file is only written on the success
branch, and it is the serialized merge of the table values with the fresh
batch records. -/
theorem save_articles_some {a : List Rec} {t : Table} {w : Bool} {f : CsvFile}
    (h : (save_articles a t w).2.2 = some f) :
    w = true ∧ f = buildFile (tVals t ++ freshB a t) ∧ freshB a t ≠ [] := by
  unfold save_articles at h
  by_cases ha : a.isEmpty = true
  · rw [if_pos ha] at h; simp at h
  · rw [if_neg ha] at h
    by_cases hn : (freshB a t).isEmpty = true
    · rw [if_pos hn] at h; simp at h
    · rw [if_neg hn] at h
      cases w with
      | false => rw [if_neg (by simp)] at h; simp at h
      | true =>
        rw [if_pos rfl] at h
        exact ⟨rfl, (Option.some_inj.mp h).symm, by simpa [List.isEmpty_iff] using hn⟩

theorem single_flush_count_le_one (b : List Rec) (t : Table) (u : String)
    (hwf : wfTable t) (hok : ∀ r ∈ tVals t ++ b, urlOkB r = true)
    (hc : batchCountUrl b (some u) ≤ 1) :
    ∀ f, (save_articles b t true).2.2 = some f → fileCountUrl f (some u) ≤ 1 := by
  intro f hf
  obtain ⟨-, rfl, -⟩ := save_articles_some hf
  have hok' : ∀ r ∈ tVals t ++ freshB b t, urlOkB r = true := by
    intro r hr
    rcases List.mem_append.mp hr with hr | hr
    · exact hok r (List.mem_append.mpr (Or.inl hr))
    · exact hok r (List.mem_append.mpr (Or.inr (List.mem_of_mem_filter hr)))
  rw [fileCountUrl_buildFile _ _ hok']
  unfold batchCountUrl
  rw [List.countP_append]
  have h1 := batchCountUrl_tVals t (some u) hwf
  have h2 := batchCountUrl_freshB b t (some u)
  unfold batchCountUrl at h1 h2
  rw [h1, h2]
  by_cases h : (alookup (some u) t).isSome
  · rw [if_pos h]
    have := tableCountUrl_le_one t (some u) hwf
    omega
  · rw [if_neg h]
    have := tableCountUrl_eq_zero t (some u) (Option.not_isSome_iff_eq_none.mp h)
    unfold batchCountUrl at hc
    omega

end CountLemmas

/-- Two consecutive calls to `save_articles` against (views of) the same
dataset; the dataset file afterwards is the one written by the second call
when it wrote, else the one from the first call.  `save_articles` never
mutates the table passed to it, so each call receives its table explicitly
(`t2` is either `t1` again or the caller's rebased view). -/
def mergeTwice (b1 : List Rec) (t1 : Table) (b2 : List Rec) (t2 : Table) :
    Option CsvFile :=
  match (save_articles b2 t2 true).2.2 with
  | some f => some f
  | none => (save_articles b1 t1 true).2.2

/-- A concrete article record, as the assembler produces it. -/
def cRec1 : Rec :=
  [("title", some "t1"), ("author", some "a"), ("content", some "c"),
    ("source", some "s"), ("url", some "http://u"), ("date", some "2024-01-01")]

/-- A second record sharing `cRec1`'s url but differing in title. -/
def cRec2 : Rec :=
  [("title", some "t2"), ("author", some "a"), ("content", some "c"),
    ("source", some "s"), ("url", some "http://u"), ("date", some "2024-01-02")]

/-- A record whose author field is the empty string. -/
def cRecEmptyAuthor : Rec :=
  [("title", some "t"), ("author", some ""), ("content", some "c"),
    ("source", some "s"), ("url", some "http://a"), ("date", some "2024-01-01")]

section StorageClaims

/-- **C1** (counterexample).  The claim says that when a batch holds several
records sharing one url, only the first occurrence is inserted and the
returned count is the number of records inserted.  On the empty table and
the batch `[cRec1, cRec2]` (same url, different titles), `save_articles`
returns 2 and the written file carries two rows with that url: duplicates
within a batch are not collapsed, so more than the first occurrence is
inserted and counted. -/
theorem save_articles_first_occurrence_claim_false :
    (save_articles [cRec1, cRec2] [] true).1 = 2 ∧
      ((save_articles [cRec1, cRec2] [] true).2.2.map
        fun f => fileCountUrl f (some "http://u")) = some 2 := by
  constructor <;> decide

/-- **C1** (amended).  `save_articles` inserts a record iff its url is
absent from the existing table, never comparing batch records against each
other: for a url absent from the table, the written file carries exactly as
many rows with that url as the batch has records with it, and the returned
count is the length of the whole filtered batch. -/
theorem save_articles_merge_amended (A : List Rec) (T : Table) (u : String)
    (hwf : wfTable T) (hokT : ∀ r ∈ tVals T, urlOkB r = true)
    (hokA : ∀ a ∈ A, urlOkB a = true)
    (habsent : alookup (some u) T = none)
    (hhas : 1 ≤ batchCountUrl A (some u)) :
    ∃ f : CsvFile,
      save_articles A T true = ((freshB A T).length, T, some f) ∧
        fileCountUrl f (some u) = batchCountUrl A (some u) := by
  obtain ⟨a0, ha0, ha0u⟩ : ∃ a ∈ A, pyGet a "url" = some u := by
    have h := List.countP_pos_iff.mp (show 0 < batchCountUrl A (some u) by
      unfold batchCountUrl at hhas ⊢; omega)
    obtain ⟨a, ha, hd⟩ := h
    exact ⟨a, ha, of_decide_eq_true hd⟩
  have hfm : a0 ∈ freshB A T :=
    List.mem_filter.mpr ⟨ha0, by rw [ha0u, habsent]; rfl⟩
  have ha : ¬A.isEmpty = true := by
    simpa [List.isEmpty_iff] using List.ne_nil_of_mem ha0
  have hn : ¬(freshB A T).isEmpty = true := by
    simpa [List.isEmpty_iff] using List.ne_nil_of_mem hfm
  refine ⟨buildFile (tVals T ++ freshB A T), ?_, ?_⟩
  · unfold save_articles
    rw [if_neg ha, if_neg hn, if_pos rfl]
  · have hok' : ∀ r ∈ tVals T ++ freshB A T, urlOkB r = true := by
      intro r hr
      rcases List.mem_append.mp hr with hr | hr
      · exact hokT r hr
      · exact hokA r (List.mem_of_mem_filter hr)
    rw [fileCountUrl_buildFile _ _ hok']
    have e1 := batchCountUrl_tVals T (some u) hwf
    have e2 := batchCountUrl_freshB A T (some u)
    have e3 := tableCountUrl_eq_zero T (some u) habsent
    rw [habsent] at e2
    simp only [Option.isSome_none, Bool.false_eq_true, if_false] at e2
    unfold batchCountUrl at e1 e2 ⊢
    rw [List.countP_append, e1, e3, e2]
    omega

/-- Witness for `save_articles_merge_amended` at the concrete duplicate
batch of the counterexample. -/
theorem save_articles_merge_amended_witness :
    ∃ f : CsvFile,
      save_articles [cRec1, cRec2] [] true =
        ((freshB [cRec1, cRec2] []).length, [], some f) ∧
        fileCountUrl f (some "http://u") = batchCountUrl [cRec1, cRec2] (some "http://u") :=
  save_articles_merge_amended [cRec1, cRec2] [] "http://u"
    (by decide) (by decide) (by decide) (by decide) (by decide)

/-- **C2** (counterexample).  The claim says two separate `save_articles`
calls merging a batch containing one record (identified by its url) into a
table increase the stored count of that url by at most 1 in total.  With the
empty table and both batches `[cRec1, cRec2]` (two records sharing the url),
the stored count goes from 0 to 2 in the flushed file, because within-batch
duplicates are not collapsed. -/
theorem merge_twice_at_most_one_claim_false :
    tableCountUrl [] (some "http://u") = 0 ∧
      ((mergeTwice [cRec1, cRec2] [] [cRec1, cRec2] []).map
        fun f => fileCountUrl f (some "http://u")) = some 2 := by
  constructor <;> decide

/-- **C2** (amended).  Provided each batch carries at most one record with
the url in question (no within-batch duplication), two separate
`save_articles` calls — whether or not the caller rebased its table between
them — leave at most one more stored row with that url than the first
table held. -/
theorem merge_twice_bounded (b1 b2 : List Rec) (t1 t2 : Table) (u : String)
    (hwf1 : wfTable t1) (hwf2 : wfTable t2)
    (hok1 : ∀ r ∈ tVals t1 ++ b1, urlOkB r = true)
    (hok2 : ∀ r ∈ tVals t2 ++ b2, urlOkB r = true)
    (hc1 : batchCountUrl b1 (some u) ≤ 1)
    (hc2 : batchCountUrl b2 (some u) ≤ 1) :
    ∀ f, mergeTwice b1 t1 b2 t2 = some f →
      fileCountUrl f (some u) ≤ tableCountUrl t1 (some u) + 1 := by
  intro f hf
  unfold mergeTwice at hf
  cases h2 : (save_articles b2 t2 true).2.2 with
  | some f2 =>
    rw [h2] at hf
    have hle := single_flush_count_le_one b2 t2 u hwf2 hok2 hc2 f2 h2
    have hff : f2 = f := by
      simpa using hf
    rw [← hff]
    omega
  | none =>
    rw [h2] at hf
    have hle := single_flush_count_le_one b1 t1 u hwf1 hok1 hc1 f hf
    omega

/-- Witness for `merge_twice_bounded`: re-merging `cRec1` alone into the
empty table leaves exactly one stored copy. -/
theorem merge_twice_bounded_witness :
    fileCountUrl (buildFile (tVals [] ++ freshB [cRec1] [])) (some "http://u") ≤
      tableCountUrl [] (some "http://u") + 1 :=
  merge_twice_bounded [cRec1] [cRec1] [] [] "http://u"
    (by decide) (by decide) (by decide) (by decide) (by decide) (by decide)
    (buildFile (tVals [] ++ freshB [cRec1] [])) (by decide)

/-- **C8**.  When the write fails, `save_articles` returns a count of 0,
hands back the very table it was given and writes nothing; and a subsequent
call over the same arguments with a functioning writer performs the normal
merge-and-flush. -/
theorem save_articles_write_failure (A : List Rec) (T : Table) :
    save_articles A T false = (0, T, none) ∧
      (freshB A T ≠ [] →
        save_articles A T true =
          ((freshB A T).length, T, some (buildFile (tVals T ++ freshB A T)))) := by
  constructor
  · unfold save_articles
    by_cases ha : A.isEmpty = true
    · rw [if_pos ha]
    · rw [if_neg ha]
      by_cases hn : (freshB A T).isEmpty = true
      · rw [if_pos hn]
      · rw [if_neg hn, if_neg (by simp)]
  · intro hne
    have hn : ¬(freshB A T).isEmpty = true := by simpa [List.isEmpty_iff] using hne
    have ha : ¬A.isEmpty = true := by
      intro hA
      rw [List.isEmpty_iff] at hA
      apply hne
      rw [hA]
      rfl
    unfold save_articles
    rw [if_neg ha, if_neg hn, if_pos rfl]

/-- Witness for `save_articles_write_failure` at a concrete batch. -/
theorem save_articles_write_failure_witness :
    save_articles [cRec1] [] false = (0, [], none) ∧
      (freshB [cRec1] [] ≠ [] →
        save_articles [cRec1] [] true =
          ((freshB [cRec1] []).length, [], some (buildFile (tVals [] ++ freshB [cRec1] [])))) :=
  save_articles_write_failure [cRec1] []

/-- **C9**.  `save_articles` returns the table it was handed untouched (the
source never assigns into `existing_articles`, and never writes into the
`articles` list; rebasing is the caller's job, as `scraper.py` does after a
checkpoint), and when it writes a file, the rows are exactly the stored
records followed by the fresh batch records — no row of a url already in the
table is replaced by a batch record, since no fresh record shares a url with
any stored entry. -/
theorem save_articles_frame (A : List Rec) (T : Table) (w : Bool) :
    (save_articles A T w).2.1 = T ∧
      ∀ f, (save_articles A T w).2.2 = some f →
        f.rows = (tVals T ++ freshB A T).map
            (fun r => (ecols (tVals T ++ freshB A T)).map
              fun c => writeCell (fCell (tVals T ++ freshB A T) r c)) ∧
          ∀ p ∈ T, ∀ a' ∈ freshB A T, pyGet a' "url" ≠ p.1 := by
  constructor
  · unfold save_articles
    by_cases ha : A.isEmpty = true
    · rw [if_pos ha]
    · rw [if_neg ha]
      by_cases hn : (freshB A T).isEmpty = true
      · rw [if_pos hn]
      · rw [if_neg hn]
        cases w with
        | false => rw [if_neg (by simp)]
        | true => rw [if_pos rfl]
  · intro f hf
    obtain ⟨-, rfl, -⟩ := save_articles_some hf
    refine ⟨by rw [buildFile_eq], ?_⟩
    intro p hp a' ha' heq
    have hnone := List.of_mem_filter ha'
    rw [heq] at hnone
    have hsome := alookup_isSome_of_mem hp
    rw [Option.isNone_iff_eq_none] at hnone
    rw [hnone] at hsome
    simp at hsome

/-- Witness for `save_articles_frame` on a written file. -/
theorem save_articles_frame_witness :
    (save_articles [cRec1] [] true).2.1 = [] ∧
      ∀ f, (save_articles [cRec1] [] true).2.2 = some f →
        f.rows = (tVals [] ++ freshB [cRec1] []).map
            (fun r => (ecols (tVals [] ++ freshB [cRec1] [])).map
              fun c => writeCell (fCell (tVals [] ++ freshB [cRec1] []) r c)) ∧
          ∀ p ∈ ([] : Table), ∀ a' ∈ freshB [cRec1] [], pyGet a' "url" ≠ p.1 :=
  save_articles_frame [cRec1] [] true

theorem alookup_mem {κ α : Type} [DecidableEq κ] {k : κ} {v : α} :
    ∀ {l : List (κ × α)}, alookup k l = some v → (k, v) ∈ l := by
  intro l
  induction l with
  | nil => simp [alookup]
  | cons p ps ih =>
    intro h
    rw [alookup] at h
    by_cases hp : p.1 = k
    · rw [if_pos hp] at h
      have : p = (k, v) := by
        rw [Prod.ext_iff]
        exact ⟨hp, Option.some_inj.mp h⟩
      rw [← this]
      exact List.mem_cons_self p ps
    · rw [if_neg hp] at h
      exact List.mem_cons_of_mem p (ih h)

/-- **C3** (counterexample).  The claim says every required column is
present and *non-null* in every reloaded record, with missing-or-empty
fields appearing as the empty string.  Flushing a record whose author field
is the empty string and loading the file back yields an author cell that is
NaN (null), not the empty string: `to_csv` writes the empty field, and
`read_csv` turns an empty field into NaN. -/
theorem flush_load_nonnull_claim_false :
    load_existing_articles (save_articles [cRecEmptyAuthor] [] true).2.2 =
      [(some "http://a",
        [("title", some "t"), ("author", none), ("content", some "c"),
          ("source", some "s"), ("url", some "http://a"), ("date", some "2024-01-01")])] ∧
      alookup "author"
          [("title", some "t"), ("author", (none : Cell)), ("content", some "c"),
            ("source", some "s"), ("url", some "http://a"), ("date", some "2024-01-01")] =
        some none ∧ (some (none : Cell) ≠ some (some "")) := by
  refine ⟨by decide, by decide, by decide⟩

/-- **C3** (amended).  Flushing a table merged with a batch and loading the
written file back is a round trip on the url key set (all records carrying
nonempty string urls); every required column is present as a key of every
reloaded record; but any field written as the empty cell — whether
originally missing or the empty string — reloads as NaN (null): no reloaded
cell is ever the empty string. -/
theorem flush_load_roundtrip (A : List Rec) (T : Table) (f : CsvFile)
    (hokT : ∀ r ∈ tVals T, urlOkB r = true) (hokA : ∀ a ∈ A, urlOkB a = true)
    (hsome : (save_articles A T true).2.2 = some f) :
    (∀ c : Cell, c ∈ tKeys (load_existing_articles (some f)) ↔
        ∃ r ∈ tVals T ++ freshB A T, pyGet r "url" = c) ∧
      (∀ p ∈ load_existing_articles (some f), ∀ c ∈ requiredColumns,
        (alookup c p.2).isSome = true) ∧
      (∀ p ∈ load_existing_articles (some f), ∀ c : String,
        alookup c p.2 ≠ some (some "")) := by
  obtain ⟨-, rfl, -⟩ := save_articles_some hsome
  have hok : ∀ r ∈ tVals T ++ freshB A T, urlOkB r = true := by
    intro r hr
    rcases List.mem_append.mp hr with hr | hr
    · exact hokT r hr
    · exact hokA r (List.mem_of_mem_filter hr)
  have hdr : (buildFile (tVals T ++ freshB A T)).header = ecols (tVals T ++ freshB A T) := by
    rw [buildFile_eq]
  have hrows : (buildFile (tVals T ++ freshB A T)).rows =
      (tVals T ++ freshB A T).map
        (fun r => (ecols (tVals T ++ freshB A T)).map
          fun c => writeCell (fCell (tVals T ++ freshB A T) r c)) := by
    rw [buildFile_eq]
  refine ⟨?_, ?_, ?_⟩
  · intro c
    rw [tKeys_load]
    constructor
    · rintro ⟨cells, hcells, hurl⟩
      rw [hrows] at hcells
      obtain ⟨r, hr, hcc⟩ := List.mem_map.mp hcells
      refine ⟨r, hr, ?_⟩
      rw [← hurl, hdr, ← hcc]
      exact (rowUrl_of_urlOk hr (hok r hr)).symm
    · rintro ⟨r, hr, hurl⟩
      refine ⟨(ecols (tVals T ++ freshB A T)).map
        (fun c => writeCell (fCell (tVals T ++ freshB A T) r c)), ?_, ?_⟩
      · rw [hrows]
        exact List.mem_map.mpr ⟨r, hr, rfl⟩
      · rw [hdr, rowUrl_of_urlOk hr (hok r hr)]
        exact hurl
  · intro p hp c hc
    obtain ⟨cells, hcells, hpp⟩ := mem_load p _ hp
    rw [hrows] at hcells
    obtain ⟨r, hr, hcc⟩ := List.mem_map.mp hcells
    have hp2 : p.2 = rowToRec (buildFile (tVals T ++ freshB A T)).header cells := by
      rw [hpp]
    rw [hp2, hdr, ← hcc, rowToRec_lookup, if_pos (required_mem_ecols _ hc)]
    rfl
  · intro p hp c
    obtain ⟨cells, hcells, hpp⟩ := mem_load p _ hp
    have hp2 : p.2 = rowToRec (buildFile (tVals T ++ freshB A T)).header cells := by
      rw [hpp]
    rw [hp2]
    intro hbad
    have hmem := alookup_mem hbad
    unfold rowToRec at hmem
    have hv := (List.of_mem_zip hmem).2
    obtain ⟨s, -, hs⟩ := List.mem_map.mp hv
    unfold readCell at hs
    by_cases h : s = ""
    · rw [if_pos h] at hs
      exact Option.noConfusion hs
    · rw [if_neg h] at hs
      exact h (Option.some_inj.mp hs)

/-- Witness for `flush_load_roundtrip` at the concrete one-record flush. -/
theorem flush_load_roundtrip_witness :
    (∀ c : Cell,
        c ∈ tKeys (load_existing_articles (some (buildFile (tVals [] ++ freshB [cRecEmptyAuthor] [])))) ↔
          ∃ r ∈ tVals [] ++ freshB [cRecEmptyAuthor] [], pyGet r "url" = c) ∧
      (∀ p ∈ load_existing_articles (some (buildFile (tVals [] ++ freshB [cRecEmptyAuthor] []))),
        ∀ c ∈ requiredColumns, (alookup c p.2).isSome = true) ∧
      (∀ p ∈ load_existing_articles (some (buildFile (tVals [] ++ freshB [cRecEmptyAuthor] []))),
        ∀ c : String, alookup c p.2 ≠ some (some "")) :=
  flush_load_roundtrip [cRecEmptyAuthor] [] _ (by decide) (by decide) (by decide)

end StorageClaims

/-!
## Dates and the URL regex patterns of `article_scraper.py`

Strings are handled at `List Char` granularity.  Python's `\d`, `\w` and
`\s` classes are Unicode on `str`; all inputs in scope are ASCII and the
ASCII classes are modelled.  Each bespoke matcher reproduces `re.search`
semantics for its pattern: leftmost match position, greedy quantifiers with
backtracking (where backtracking can never succeed after the committed
separator — a digit and the separator are disjoint — the deterministic
version shown is equivalent).
-/

/-- A Python `datetime`'s calendar date.  Time-of-day is validated where the
source parses it but not retained: every claim-relevant comparison happens
after `strftime('%Y-%m-%d')` has dropped it, or between midnight values. -/
structure PyDate where
  year : Nat
  month : Nat
  day : Nat
deriving DecidableEq, Repr

def isLeapYear (y : Nat) : Bool :=
  y % 4 == 0 && (y % 100 != 0 || y % 400 == 0)

def daysInMonth (y m : Nat) : Nat :=
  if m = 2 then (if isLeapYear y then 29 else 28)
  else if m = 4 ∨ m = 6 ∨ m = 9 ∨ m = 11 then 30
  else 31

/-- `datetime(year, month, day)` constructor validation (`ValueError`
unless a real calendar date with year in `[1, 9999]`). -/
def mkDate (y m d : Nat) : Option PyDate :=
  if 1 ≤ y && y ≤ 9999 && 1 ≤ m && m ≤ 12 && 1 ≤ d && d ≤ daysInMonth y m then
    some ⟨y, m, d⟩
  else none

/-- Strict `datetime` comparison restricted to dates (both operands are
midnight wherever the source compares). -/
def PyDate.lt (a b : PyDate) : Bool :=
  a.year < b.year ||
    (a.year == b.year &&
      (a.month < b.month || (a.month == b.month && a.day < b.day)))

def dval (c : Char) : Nat := c.toNat - 48

/-- Exactly `n` ASCII digits, accumulating their value. -/
def takeDigits : Nat → List Char → Nat → Option (Nat × List Char)
  | 0, l, acc => some (acc, l)
  | n + 1, c :: cs, acc =>
    if c.isDigit then takeDigits n cs (acc * 10 + dval c) else none
  | _ + 1, [], _ => none

/-- `(\d{1,2})/`: two digits then one (greedy order); committing to the two
digit branch is safe because the following `/` can never be a digit. -/
def d12Slash (l : List Char) : Option (Nat × List Char) :=
  match takeDigits 2 l 0 with
  | some (v, '/' :: rest) => some (v, rest)
  | _ =>
    match takeDigits 1 l 0 with
    | some (v, '/' :: rest) => some (v, rest)
    | _ => none

/-- `/(\d{4})/(\d{1,2})/(\d{1,2})/` at the head of the input, returning the
groups and the input remaining after the final slash. -/
def matchYmdCore : List Char → Option ((Nat × Nat × Nat) × List Char)
  | '/' :: rest =>
    match takeDigits 4 rest 0 with
    | some (y, '/' :: r2) =>
      match d12Slash r2 with
      | some (m, r3) =>
        match d12Slash r3 with
        | some (d, r4) => some ((y, m, d), r4)
        | none => none
      | none => none
    | _ => none
  | _ => none

/-- Pattern `/(\d{4})/(\d{1,2})/(\d{1,2})/` (CNN/WaPo style). -/
def matchYmdSlashAt (l : List Char) : Option (Nat × Nat × Nat) :=
  (matchYmdCore l).map Prod.fst

def isWordChar (c : Char) : Bool := c.isAlpha || c.isDigit || c = '_'

/-- `\w+/` at the head of the input: a maximal nonempty word run followed by
a slash (shortening the greedy run can never reach a slash). -/
def wordRunSlash (l : List Char) : Bool :=
  let run := l.takeWhile isWordChar
  decide (1 ≤ run.length) && decide ((l.drop run.length).head? = some '/')

/-- Pattern `/(\d{4})/(\d{1,2})/(\d{1,2})/\w+/` (NYT style). -/
def matchYmdSlashWordAt (l : List Char) : Option (Nat × Nat × Nat) :=
  match matchYmdCore l with
  | some (g, rest) => if wordRunSlash rest then some g else none
  | none => none

/-- Patterns `-(\d{4})(\d{2})(\d{2})$` and `-(\d{8})$` (split 4/2/2): a dash,
eight digits, end of input. -/
def matchDash8At : List Char → Option (Nat × Nat × Nat)
  | '-' :: rest =>
    match takeDigits 4 rest 0 with
    | some (y, r2) =>
      match takeDigits 2 r2 0 with
      | some (m, r3) =>
        match takeDigits 2 r3 0 with
        | some (d, []) => some (y, m, d)
        | _ => none
      | none => none
    | none => none
  | _ => none

def isLowerAlpha (c : Char) : Bool := 'a' ≤ c && c ≤ 'z'

/-- Pattern `/(\d{4})/([a-z]{3})/(\d{1,2})/` (Guardian style). -/
def matchYMonDAt : List Char → Option (Nat × (Char × Char × Char) × Nat)
  | '/' :: rest =>
    match takeDigits 4 rest 0 with
    | some (y, '/' :: a :: b :: c :: '/' :: r2) =>
      if isLowerAlpha a && isLowerAlpha b && isLowerAlpha c then
        match d12Slash r2 with
        | some (d, _) => some (y, (a, b, c), d)
        | none => none
      else none
    | _ => none
  | _ => none

/-- `re.search`: try the matcher at every position, leftmost first (the
position at the end of the input included). -/
def searchO {α : Type} (m : List Char → Option α) : List Char → Option α
  | [] => m []
  | l@(_ :: rest) =>
    match m l with
    | some r => some r
    | none => searchO m rest

/-- `month_abbr.get(month.lower(), 1)` — the unregistered-month default is
January. -/
def monthAbbr (a b c : Char) : Nat :=
  let s := String.mk [a, b, c]
  if s = "jan" then 1 else if s = "feb" then 2 else if s = "mar" then 3
  else if s = "apr" then 4 else if s = "may" then 5 else if s = "jun" then 6
  else if s = "jul" then 7 else if s = "aug" then 8 else if s = "sep" then 9
  else if s = "oct" then 10 else if s = "nov" then 11 else if s = "dec" then 12
  else 1

/-- Per-pattern acceptance in `get_date_from_url`: the basic range check,
then the `datetime` constructor whose `ValueError` is caught and turns the
match into a fall-through to the next pattern. -/
def validateUrlDate (y m d : Nat) : Option PyDate :=
  if 1900 ≤ y && y ≤ 2100 && 1 ≤ m && m ≤ 12 && 1 ≤ d && d ≤ 31 then mkDate y m d
  else none

/-- `get_date_from_url(url)` from `src/article_scraper.py`: the four URL
date patterns in order, one `re.search` each (only the first match of a
pattern is examined; an invalid match falls to the next *pattern*), then
the BBC `-(\d{8})$` block, which repeats the third pattern's match and
checks. -/
def get_date_from_url (url : List Char) : Option PyDate :=
  (match searchO matchYmdSlashAt url with
   | some (y, m, d) => validateUrlDate y m d
   | none => none) <|>
  (match searchO matchYmdSlashWordAt url with
   | some (y, m, d) => validateUrlDate y m d
   | none => none) <|>
  (match searchO matchDash8At url with
   | some (y, m, d) => validateUrlDate y m d
   | none => none) <|>
  (match searchO matchYMonDAt url with
   | some (y, mo, d) => validateUrlDate y (monthAbbr mo.1 mo.2.1 mo.2.2) d
   | none => none) <|>
  (match searchO matchDash8At url with
   | some (y, m, d) => validateUrlDate y m d
   | none => none)

/-!
## `datetime.fromisoformat` and `datetime.strptime` models

`fromisoformat` follows CPython < 3.11 (the version the source targets: it
pre-replaces a trailing `Z`, which 3.11+ would accept directly): a strict
`YYYY-MM-DD`, optionally one arbitrary separator character and a time
`HH[:MM[:SS[.fff[fff]]]]` with an optional `±HH:MM[:SS[.ffffff]]` offset
whose total magnitude must stay below 24 hours.  Parsed time-of-day is
validated then dropped (see `PyDate`). -/

def listPrefixOf : List Char → List Char → Bool
  | [], _ => true
  | _ :: _, [] => false
  | a :: as, b :: bs => a == b && listPrefixOf as bs

/-- `str.startswith(pre)`. -/
def pyStartsWith (s pre : String) : Bool := listPrefixOf pre.data s.data

/-- `str.endswith(suf)`. -/
def pyEndsWith (s suf : String) : Bool :=
  listPrefixOf suf.data.reverse s.data.reverse

/-- `±HH:MM[:SS[.ffffff]]` — a valid UTC offset (strictly less than 24h). -/
def parseOffset : List Char → Bool
  | [] => true
  | sign :: h1 :: h2 :: ':' :: m1 :: m2 :: rest =>
    (sign = '+' || sign = '-') && [h1, h2, m1, m2].all Char.isDigit &&
      (match rest with
       | [] =>
         decide ((10 * dval h1 + dval h2) * 3600 + (10 * dval m1 + dval m2) * 60 < 86400)
       | ':' :: s1 :: s2 :: rest2 =>
         s1.isDigit && s2.isDigit &&
           decide ((10 * dval h1 + dval h2) * 3600 + (10 * dval m1 + dval m2) * 60 +
             (10 * dval s1 + dval s2) < 86400) &&
           (match rest2 with
            | [] => true
            | '.' :: fs => decide (fs.length = 6) && fs.all Char.isDigit
            | _ => false)
       | _ => false)
  | _ => false

def afterSeconds : List Char → Bool
  | [] => true
  | '.' :: rest =>
    let fs := rest.takeWhile Char.isDigit
    (decide (fs.length = 3) || decide (fs.length = 6)) && parseOffset (rest.drop fs.length)
  | rest => parseOffset rest

def afterMinutes : List Char → Bool
  | ':' :: s1 :: s2 :: rest =>
    s1.isDigit && s2.isDigit && decide (10 * dval s1 + dval s2 ≤ 59) && afterSeconds rest
  | rest => parseOffset rest

def afterHours : List Char → Bool
  | ':' :: m1 :: m2 :: rest =>
    m1.isDigit && m2.isDigit && decide (10 * dval m1 + dval m2 ≤ 59) && afterMinutes rest
  | rest => parseOffset rest

/-- The time part of an ISO string (hour/minute/second ranges are enforced
by the `datetime` constructor). -/
def parseTimeOfDay : List Char → Bool
  | h1 :: h2 :: rest =>
    h1.isDigit && h2.isDigit && decide (10 * dval h1 + dval h2 ≤ 23) && afterHours rest
  | _ => false

/-- The strict `YYYY-MM-DD` prefix of an ISO string. -/
def isoDatePrefix : List Char → Option (PyDate × List Char)
  | y1 :: y2 :: y3 :: y4 :: '-' :: m1 :: m2 :: '-' :: d1 :: d2 :: rest =>
    if [y1, y2, y3, y4, m1, m2, d1, d2].all Char.isDigit then
      match mkDate (((dval y1 * 10 + dval y2) * 10 + dval y3) * 10 + dval y4)
          (10 * dval m1 + dval m2) (10 * dval d1 + dval d2) with
      | some dt => some (dt, rest)
      | none => none
    else none
  | _ => none

/-- `datetime.fromisoformat` (CPython < 3.11), reduced to its calendar
date. -/
def fromisoformat (s : String) : Option PyDate :=
  match isoDatePrefix s.data with
  | some (dt, []) => some dt
  | some (dt, _sep :: timestr) => if parseTimeOfDay timestr then some dt else none
  | none => none

/-- `str.replace(c, r)`: replace every occurrence. -/
def pyReplace (s : String) (c : Char) (r : String) : String :=
  String.mk ((s.data.map fun x => if x = c then r.data else [x]).flatten)

/-- `'T' in s`. -/
def hasT (s : String) : Bool := s.data.contains 'T'

/-- The ISO branch the source uses everywhere: strip a trailing `Z` into
`+00:00` first. -/
def isoParseWithZ (s : String) : Option PyDate :=
  if pyEndsWith s "Z" then fromisoformat (pyReplace s 'Z' "+00:00")
  else fromisoformat s

/-- `\s+` for a literal whitespace run in a `strptime` format (CPython
rewrites whitespace in the format to `\s+`). -/
def ws1 : List Char → Option (List Char)
  | c :: cs => if c.isWhitespace then some (cs.dropWhile Char.isWhitespace) else none
  | [] => none

/-- `%m` (`1[0-2]|0[1-9]|[1-9]`): two digits valued 1–12 when the leading
digit is 0 or 1, else one digit 1–9; committing to two digits is safe
because whatever must follow `%m` in the formats in scope is never a
digit. -/
def parseMonthTok : List Char → Option (Nat × List Char)
  | c1 :: c2 :: rest =>
    if c1.isDigit && c2.isDigit &&
        decide (1 ≤ 10 * dval c1 + dval c2) && decide (10 * dval c1 + dval c2 ≤ 12) then
      some (10 * dval c1 + dval c2, rest)
    else if c1.isDigit && decide (1 ≤ dval c1) then some (dval c1, c2 :: rest)
    else none
  | [c1] => if c1.isDigit && decide (1 ≤ dval c1) then some (dval c1, []) else none
  | [] => none

/-- `%d` (`3[01]|[12]\d|0[1-9]|[1-9]`), same committing argument. -/
def parseDayTok : List Char → Option (Nat × List Char)
  | c1 :: c2 :: rest =>
    if c1.isDigit && c2.isDigit &&
        decide (1 ≤ 10 * dval c1 + dval c2) && decide (10 * dval c1 + dval c2 ≤ 31) then
      some (10 * dval c1 + dval c2, rest)
    else if c1.isDigit && decide (1 ≤ dval c1) then some (dval c1, c2 :: rest)
    else none
  | [c1] => if c1.isDigit && decide (1 ≤ dval c1) then some (dval c1, []) else none
  | [] => none

/-- `%Y`: exactly four digits. -/
def parseYear4 (l : List Char) : Option (Nat × List Char) := takeDigits 4 l 0

def monthNames : List (String × Nat) :=
  [("january", 1), ("february", 2), ("march", 3), ("april", 4), ("may", 5),
    ("june", 6), ("july", 7), ("august", 8), ("september", 9), ("october", 10),
    ("november", 11), ("december", 12)]

/-- `%B`: a full month name, case-insensitively (no name is a prefix of
another). -/
def parseMonthName (l : List Char) : Option (Nat × List Char) :=
  (monthNames.filterMap fun nm =>
    if (l.take nm.1.length).map Char.toLower = nm.1.data then
      some (nm.2, l.drop nm.1.length)
    else none).head?

/-- `datetime.strptime(s, '%Y-%m-%d')` (full-string match, then the
`datetime` constructor's calendar validation). -/
def strptimeYmdDash (s : String) : Option PyDate :=
  match parseYear4 s.data with
  | some (y, '-' :: r1) =>
    match parseMonthTok r1 with
    | some (m, '-' :: r2) =>
      match parseDayTok r2 with
      | some (d, []) => mkDate y m d
      | _ => none
    | _ => none
  | _ => none

/-- `datetime.strptime(s, '%Y/%m/%d')`. -/
def strptimeYmdSlash (s : String) : Option PyDate :=
  match parseYear4 s.data with
  | some (y, '/' :: r1) =>
    match parseMonthTok r1 with
    | some (m, '/' :: r2) =>
      match parseDayTok r2 with
      | some (d, []) => mkDate y m d
      | _ => none
    | _ => none
  | _ => none

/-- `datetime.strptime(s, '%B %d, %Y')`. -/
def strptimeBdY (s : String) : Option PyDate :=
  match parseMonthName s.data with
  | some (m, r1) =>
    match ws1 r1 with
    | some r2 =>
      match parseDayTok r2 with
      | some (d, ',' :: r3) =>
        match ws1 r3 with
        | some r4 =>
          match parseYear4 r4 with
          | some (y, []) => mkDate y m d
          | _ => none
        | none => none
      | _ => none
    | none => none
  | none => none

/-- `datetime.strptime(s, '%d %B %Y')`. -/
def strptimeDBY (s : String) : Option PyDate :=
  match parseDayTok s.data with
  | some (d, r1) =>
    match ws1 r1 with
    | some r2 =>
      match parseMonthName r2 with
      | some (m, r3) =>
        match ws1 r3 with
        | some r4 =>
          match parseYear4 r4 with
          | some (y, []) => mkDate y m d
          | _ => none
        | none => none
      | none => none
    | none => none
  | none => none

/-- `datetime.strptime(s, '%m/%d/%Y')`. -/
def strptimeMdY (s : String) : Option PyDate :=
  match parseMonthTok s.data with
  | some (m, '/' :: r1) =>
    match parseDayTok r1 with
    | some (d, '/' :: r2) =>
      match parseYear4 r2 with
      | some (y, []) => mkDate y m d
      | _ => none
    | _ => none
  | _ => none

/-- `datetime.strptime(s, '%d/%m/%Y')`. -/
def strptimeDmY (s : String) : Option PyDate :=
  match parseDayTok s.data with
  | some (d, '/' :: r1) =>
    match parseMonthTok r1 with
    | some (m, '/' :: r2) =>
      match parseYear4 r2 with
      | some (y, []) => mkDate y m d
      | _ => none
    | _ => none
  | _ => none

/-- The `['%Y-%m-%d', '%Y/%m/%d', '%B %d, %Y', '%d %B %Y']` loop of the
meta-tag and time-element strategies: first format that parses wins. -/
def tryMetaFormats (s : String) : Option PyDate :=
  strptimeYmdDash s <|> strptimeYmdSlash s <|> strptimeBdY s <|> strptimeDBY s

/-- The `['%Y-%m-%d', '%B %d, %Y', '%d %B %Y', '%m/%d/%Y', '%d/%m/%Y']`
loop of the class-name strategy. -/
def tryClassFormats (s : String) : Option PyDate :=
  strptimeYmdDash s <|> strptimeBdY s <|> strptimeDBY s <|>
    strptimeMdY s <|> strptimeDmY s

/-- The shared meta/time parsing block: an ISO parse when the value contains
a `T` (a failure there raises and is caught by the enclosing
`except ... pass`, skipping the format list entirely), otherwise the format
list. -/
def parseIsoThenFormats (s : String) : Option PyDate :=
  if hasT s then isoParseWithZ s else tryMetaFormats s

/-!
## Document model and the strategy cascade

BeautifulSoup, `requests` and `json` are external libraries; the document is
modelled by the outcome of each query the source performs on it.
-/

/-- A parsed JSON value (the output of `json.loads`). -/
inductive PyJson where
  | str (s : String)
  | num (n : Int)
  | jbool (b : Bool)
  | null
  | arr (xs : List PyJson)
  | obj (fields : List (String × PyJson))
deriving Repr

/-- A bs4 `Tag`, reduced to what the source reads off it.  `tagTruthy`
models `bool(tag)` (library behaviour, version-dependent for childless
tags); `inNavFooterHeader` models
`tag.find_parent(['nav', 'footer', 'header']) is not None`. -/
structure Element where
  attrs : List (String × String)
  text : String
  tagTruthy : Bool
  inNavFooterHeader : Bool
deriving DecidableEq, Repr

/-- `tag.get(key)`. -/
def Element.get (e : Element) (k : String) : Option String := alookup k e.attrs

/-- `str.strip()`. -/
def pyStrip (s : String) : String :=
  String.mk (((s.data.dropWhile Char.isWhitespace).reverse.dropWhile Char.isWhitespace).reverse)

/-- Truthiness of an optional string (`None` and `''` are falsy). -/
def pyTruthyO : Option String → Bool
  | none => false
  | some s => s ≠ ""

/-- Python `or` on lists: the first operand unless empty. -/
def pyOrList {α : Type} (a b : List α) : List α := if a.isEmpty then b else a

/-- The parsed article page: one field per query the source makes of
BeautifulSoup.  `jsonLdScripts` holds, per
`<script type="application/ld+json">` in document order, the outcome of
`json.loads(script.string)` — `none` is the per-script
`JSONDecodeError`/`AttributeError`, which the source catches and skips. -/
structure Soup where
  selectOne : String → Option Element
  select : String → List Element
  findMeta : List (String × String) → Option Element
  timeElements : List Element
  jsonLdScripts : List (Option PyJson)
  findH1 : Option Element
  findTitleTag : Option Element
  selectClassContains : String → List Element
  allParagraphs : List Element

/-- The `'T' in date_str` gate plus the ISO parse shared by the three
JSON-LD probe sites; `none` is fall-through, whether the gate failed or
`fromisoformat` raised the `ValueError` each site catches. -/
def jsonLdDateFromStr (s : String) : Option PyDate :=
  if hasT s then isoParseWithZ s else none

/-- The `@graph` loop of `extract_date_from_json_ld`.  An item that is a
dict carrying a non-string `datePublished` raises `TypeError` at
`'T' in date_str`; nothing in the source catches it. -/
def tryGraphItems : List PyJson → Except Unit (Option PyDate)
  | [] => .ok none
  | item :: rest =>
    match item with
    | .obj fs =>
      match alookup "datePublished" fs with
      | some (.str s) =>
        match jsonLdDateFromStr s with
        | some d => .ok (some d)
        | none => tryGraphItems rest
      | some _ => .error ()
      | none => tryGraphItems rest
    | _ => tryGraphItems rest

/-- One `datePublished` probe of a dict: a value is only considered when it
is a string (`isinstance(..., str)`), and only parsed through the `'T'`
gate. -/
def dpProbe (fs : List (String × PyJson)) : Option PyDate :=
  match alookup "datePublished" fs with
  | some (.str s) => jsonLdDateFromStr s
  | _ => none

/-- The per-script dict probes of `extract_date_from_json_ld`: top-level
`datePublished` (only when a string), then a nested `article` dict, then a
nonempty `@graph` list. -/
def jsonLdFromDict : PyJson → Except Unit (Option PyDate)
  | .obj fs =>
    match dpProbe fs with
    | some d => .ok (some d)
    | none =>
      match
        (match alookup "article" fs with
         | some (.obj afs) => dpProbe afs
         | _ => none) with
      | some d => .ok (some d)
      | none =>
        match alookup "@graph" fs with
        | some (.arr (g :: gs)) => tryGraphItems (g :: gs)
        | _ => .ok none
  | _ => .ok none

/-- `data = data[0]` when the script parsed to a list — `IndexError` on an
empty list is uncaught. -/
def jsonLdFromData : PyJson → Except Unit (Option PyDate)
  | .arr [] => .error ()
  | .arr (x :: _) => jsonLdFromDict x
  | .str s => jsonLdFromDict (.str s)
  | .num n => jsonLdFromDict (.num n)
  | .jbool b => jsonLdFromDict (.jbool b)
  | .null => jsonLdFromDict .null
  | .obj fs => jsonLdFromDict (.obj fs)

/-- `extract_date_from_json_ld(soup)` over the parsed script list. -/
def extract_date_from_json_ld : List (Option PyJson) → Except Unit (Option PyDate)
  | [] => .ok none
  | none :: rest => extract_date_from_json_ld rest
  | some j :: rest =>
    match jsonLdFromData j with
    | .error e => .error e
    | .ok (some d) => .ok (some d)
    | .ok none => extract_date_from_json_ld rest

/-- The fifteen meta-tag probes of strategy 3, in source order. -/
def metaTagQueries : List (List (String × String)) :=
  [[("property", "article:published_time")], [("property", "article:modified_time")],
    [("name", "pubdate")], [("name", "publishdate")], [("name", "date")],
    [("name", "published-date")], [("itemprop", "datePublished")],
    [("itemprop", "dateModified")], [("name", "DC.date.issued")],
    [("name", "DC.date.created")], [("name", "DC.date")],
    [("name", "article.published")], [("name", "article.created")],
    [("name", "date_published")], [("property", "og:published_time")]]

/-- Strategy 3: the meta-tag cascade.  A probe fires when the tag is found,
truthy, and carries truthy content; a parse failure falls to the next
probe. -/
def metaStrategyGo (soup : Soup) : List (List (String × String)) → Option PyDate
  | [] => none
  | q :: qs =>
    match soup.findMeta q with
    | some el =>
      if el.tagTruthy && pyTruthyO (el.get "content") then
        match parseIsoThenFormats ((el.get "content").getD "") with
        | some d => some d
        | none => metaStrategyGo soup qs
      else metaStrategyGo soup qs
    | none => metaStrategyGo soup qs

/-- Strategy 4: `<time>` elements in document order;
`get('datetime') or get('content')`, parsed like the meta values. -/
def timeStrategyGo : List Element → Option PyDate
  | [] => none
  | el :: rest =>
    let ds := if pyTruthyO (el.get "datetime") then el.get "datetime" else el.get "content"
    if pyTruthyO ds then
      match parseIsoThenFormats (ds.getD "") with
      | some d => some d
      | none => timeStrategyGo rest
    else timeStrategyGo rest

/-- The eleven class-name substrings of strategy 5, in source order. -/
def dateClassNames : List String :=
  ["date", "time", "timestamp", "article-date", "article__date",
    "publication-date", "byline-date", "meta-date", "story-date",
    "publish-date", "post-date"]

def classStrategyElems : List Element → Option PyDate
  | [] => none
  | el :: rest =>
    match tryClassFormats (pyStrip el.text) with
    | some d => some d
    | none => classStrategyElems rest

/-- Strategy 5: elements whose class contains a date-related substring,
their stripped text parsed against the shorter format list. -/
def classStrategyGo (soup : Soup) : List String → Option PyDate
  | [] => none
  | cn :: cns =>
    match classStrategyElems (soup.selectClassContains cn) with
    | some d => some d
    | none => classStrategyGo soup cns

/-- `extract_date(soup, url)`: the five-strategy cascade, first success
short-circuiting the rest.  The result is `Except` because an exception
escaping the JSON-LD strategy propagates out of `extract_date` (it is only
caught in `extract_article_bs4`); no other strategy lets one escape. -/
def extract_date (soup : Soup) (url : String) : Except Unit (Option PyDate) :=
  match get_date_from_url url.data with
  | some d => .ok (some d)
  | none =>
    match extract_date_from_json_ld soup.jsonLdScripts with
    | .error e => .error e
    | .ok (some d) => .ok (some d)
    | .ok none =>
      match metaStrategyGo soup metaTagQueries with
      | some d => .ok (some d)
      | none =>
        match timeStrategyGo soup.timeElements with
        | some d => .ok (some d)
        | none => .ok (classStrategyGo soup dateClassNames)

/-!
## Field extraction and the assembler
-/

/-- The per-source extraction selectors (`source_config.get(...)`: `none`
when the key is absent). -/
structure SourceConfig where
  titleSelector : Option String
  authorSelector : Option String
  contentSelector : Option String

/-- The assembled record (`article_data` in `extract_article_bs4`). -/
structure ArticleRec where
  title : String
  author : String
  content : String
  source : String
  url : String
  date : String
deriving DecidableEq, Repr

/-- `pub_date.strftime('%Y-%m-%d')` (glibc: the year unpadded — years in
scope are four-digit — month and day zero-padded to two). -/
def strftimeYmd (d : PyDate) : String :=
  toString d.year ++ "-" ++ (if d.month < 10 then "0" else "") ++ toString d.month ++
    "-" ++ (if d.day < 10 then "0" else "") ++ toString d.day

/-- The `title` variable of `extract_article_bs4` just before the sentinel:
configured selector first, else `soup.find('h1') or soup.find('title')`. -/
def extractTitle (soup : Soup) (cfg : SourceConfig) : Option String :=
  let t1 : Option String :=
    if pyTruthyO cfg.titleSelector then
      match soup.selectOne (cfg.titleSelector.getD "") with
      | some el => if el.tagTruthy then some (pyStrip el.text) else none
      | none => none
    else none
  if pyTruthyO t1 then t1
  else
    match
      (match soup.findH1 with
       | some el => if el.tagTruthy then some el else soup.findTitleTag
       | none => soup.findTitleTag) with
    | some el => if el.tagTruthy then some (pyStrip el.text) else t1
    | none => t1

def stripTexts (els : List Element) : List String := els.map fun e => pyStrip e.text

/-- The `authors` list of `extract_article_bs4`: configured selector, else
author-relation links / author-class spans, else the author meta tag. -/
def extractAuthors (soup : Soup) (cfg : SourceConfig) : List String :=
  let a1 : List String :=
    if pyTruthyO cfg.authorSelector then
      stripTexts (soup.select (cfg.authorSelector.getD ""))
    else []
  if ¬a1.isEmpty then a1
  else
    let els := pyOrList (soup.select "a[rel=\"author\"]")
      (soup.select "span[class*=\"author\"]")
    let a2 := stripTexts els
    if ¬a2.isEmpty then a2
    else
      match soup.findMeta [("name", "author")] with
      | some el =>
        if el.tagTruthy && pyTruthyO (el.get "content") then [(el.get "content").getD ""]
        else []
      | none => []

/-- Paragraph texts stripped and filtered to the truthy ones, joined by
blank lines. -/
def joinParagraphs (els : List Element) : String :=
  String.intercalate (String.mk ['\n', '\n']) ((stripTexts els).filter fun s => s ≠ "")

/-- The `content` string of `extract_article_bs4`: configured selector,
else the three-tier generic fallback. -/
def extractContent (soup : Soup) (cfg : SourceConfig) : String :=
  let c1 : String :=
    if pyTruthyO cfg.contentSelector then
      let els := soup.select (cfg.contentSelector.getD "")
      if ¬els.isEmpty then joinParagraphs els else ""
    else ""
  if c1 ≠ "" then c1
  else
    let els := pyOrList (soup.select "article p")
      (pyOrList (soup.select "div[class*=\"article\"] p")
        (soup.select "div[class*=\"content\"] p"))
    let c2 := joinParagraphs els
    if c2 ≠ "" then c2
    else
      let paras := soup.allParagraphs.filter fun p =>
        decide (100 < (pyStrip p.text).length) && ¬p.inNavFooterHeader
      String.intercalate (String.mk ['\n', '\n']) (stripTexts paras)

/-- `extract_article_bs4(url, source_name, source_config)`.  The network
fetch and HTML parse are external: `fetched` is the parsed document when
`requests.get` and `BeautifulSoup` succeed, `none` when the fetch raises.
The enclosing `try` also catches an exception escaping `extract_date`
(JSON-LD `IndexError`/`TypeError`), so both produce `none`; and an
undateable page returns `None` before authors or content are examined. -/
def extract_article_bs4 (fetched : Option Soup) (url sourceName : String)
    (cfg : SourceConfig) : Option ArticleRec :=
  match fetched with
  | none => none
  | some soup =>
    match extract_date soup url with
    | .error _ => none
    | .ok none => none
    | .ok (some pubDate) =>
      let authors := extractAuthors soup cfg
      some
        { title := match extractTitle soup cfg with
            | some s => if s ≠ "" then s else "Unknown Title"
            | none => "Unknown Title"
          author := if ¬authors.isEmpty then String.intercalate ", " authors
            else "Unknown"
          content := extractContent soup cfg
          source := sourceName
          url := url
          date := strftimeYmd pubDate }

/-- `extract_article(url, source_name, source_config, start_date)`: the
assembler plus the `startDate` cutoff.  Re-parsing the record's own date
string cannot fail for four-digit years, but a failure would raise out of
the function (`Except.error`). -/
def extract_article (fetched : Option Soup) (url sourceName : String)
    (cfg : SourceConfig) (startDate : Option PyDate) :
    Except Unit (Option ArticleRec) :=
  match extract_article_bs4 fetched url sourceName cfg with
  | none => .ok none
  | some rec =>
    match startDate with
    | none => .ok (some rec)
    | some sd =>
      match strptimeYmdDash rec.date with
      | none => .error ()
      | some ad => if ad.lt sd then .ok none else .ok (some rec)

/-!
## The link classifier (`get_article_urls` and the per-source predicates)
-/

def pyLower (s : String) : String := String.mk (s.data.map Char.toLower)

def listInfixOf (sub : List Char) : List Char → Bool
  | [] => listPrefixOf sub []
  | l@(_ :: rest) => listPrefixOf sub l || listInfixOf sub rest

/-- `sub in s`. -/
def strContains (s sub : String) : Bool := listInfixOf sub.data s.data

/-- `/\d{4}/\d{2}/\d{2}/` at the head of the input. -/
def matchD424At : List Char → Bool
  | '/' :: rest =>
    match takeDigits 4 rest 0 with
    | some (_, '/' :: r2) =>
      match takeDigits 2 r2 0 with
      | some (_, '/' :: r3) =>
        match takeDigits 2 r3 0 with
        | some (_, '/' :: _) => true
        | _ => false
      | _ => false
    | _ => false
  | _ => false

/-- `/\d{4}/[a-z]{3}/\d{2}/` at the head of the input. -/
def matchSlashMonAt : List Char → Bool
  | '/' :: rest =>
    match takeDigits 4 rest 0 with
    | some (_, '/' :: a :: b :: c :: '/' :: r2) =>
      if isLowerAlpha a && isLowerAlpha b && isLowerAlpha c then
        match takeDigits 2 r2 0 with
        | some (_, '/' :: _) => true
        | _ => false
      else false
    | _ => false
  | _ => false

def classDash (c : Char) : Bool := c = '-' || isLowerAlpha c

/-- `/news/[-a-z]+-\d+` at the head of the input.  With backtracking, the
`[-a-z]+` group must end one character before the end of the maximal
class run (that character being the literal `-`), and the character after
the run must open `\d+` — digits are not class characters, so no other
split can match. -/
def matchNewsIdAt : List Char → Bool
  | '/' :: 'n' :: 'e' :: 'w' :: 's' :: '/' :: rest =>
    let run := rest.takeWhile classDash
    decide (2 ≤ run.length) && decide (run.getLast? = some '-') &&
      (match (rest.drop run.length).head? with
       | some c => c.isDigit
       | none => false)
  | _ => false

/-- `re.search` for a boolean matcher. -/
def searchB (m : List Char → Bool) : List Char → Bool
  | [] => m []
  | l@(_ :: rest) => m l || searchB m rest

/-- `str.rstrip('/')`. -/
def pyRstripSlash (s : String) : String :=
  String.mk (s.data.reverse.dropWhile (· = '/')).reverse

/-- `is_nytimes_article_url(url)` from `src/article_scraper.py`. -/
def is_nytimes_article_url (url : String) : Bool :=
  if strContains url "?page=" || pyEndsWith url "/section/politics" ||
      pyEndsWith url "/section/world" || pyEndsWith url "/section/business" then false
  else if strContains url "/video/" then false
  else if strContains url "/es/" && strContains url "/espanol/" then true
  else searchB matchD424At url.data

/-- `is_bbc_article_url(url)` from `src/article_scraper.py`. -/
def is_bbc_article_url (url : String) : Bool :=
  if strContains url "/topics/" || strContains url "/tags/" ||
      strContains url "/live/" || strContains url "/programmes/" then false
  else if strContains url "/av/" then false
  else if strContains url "/news/articles/" || strContains url "/news/uk-" ||
      strContains url "/news/world-" || strContains url "/news/business-" then true
  else searchB matchNewsIdAt url.data

/-- `is_guardian_article_url(url)` from `src/article_scraper.py`. -/
def is_guardian_article_url (url : String) : Bool :=
  if strContains url "/help/" || strContains url "/about/" ||
      strContains url "/info/" || strContains url "/profile/" then false
  else if pyEndsWith url "/world" || pyEndsWith url "/politics" ||
      pyEndsWith url "/business" then false
  else if strContains url "/search?" then false
  else if strContains url "/static/" || strContains url "/images/" ||
      strContains url "/media/" || strContains url "/video/" then false
  else if strContains url "/sign-up/" || strContains url "/subscribe/" ||
      strContains url "/newsletters/" then false
  else if searchB matchSlashMonAt url.data then true
  else if searchB matchD424At url.data then true
  else
    let segments := (pyRstripSlash url).split (· = '/')
    decide (4 < segments.length) &&
      (match segments.getLast? with
       | some last => strContains last "-"
       | none => false)

/-- The per-source classification dispatch of the URL loop. -/
def classifyLink (sourceName fullUrl : String) : Bool :=
  if pyLower sourceName = "cnn" then searchB matchD424At fullUrl.data
  else if pyStartsWith (pyLower sourceName) "nytimes" then is_nytimes_article_url fullUrl
  else if pyStartsWith (pyLower sourceName) "bbc" then is_bbc_article_url fullUrl
  else if strContains (pyLower sourceName) "guardian" then is_guardian_article_url fullUrl
  else true

/-- `if source_max_articles and len(urls) >= source_max_articles` —
`None` and `0` are both falsy, so only a positive cap limits anything. -/
def capReached (cap : Option Nat) (n : Nat) : Bool :=
  match cap with
  | none => false
  | some m => decide (m ≠ 0) && decide (m ≤ n)

def capTruthy : Option Nat → Bool
  | none => false
  | some n => decide (n ≠ 0)

/-- The URL-collection loop of `get_article_urls`: the cap is checked at the
top of each iteration and again after a possible append — both checks
count the raw, not yet deduplicated list. -/
def collectUrls (sourceName baseUrl : String) (cap : Option Nat)
    (ujoin : String → String → String) :
    List (Option String) → List String → List String
  | [], urls => urls
  | link :: rest, urls =>
    if capReached cap urls.length then urls
    else
      let urls' :=
        match link with
        | none => urls
        | some href =>
          if pyStartsWith href "#" || pyStartsWith href "javascript:" then urls
          else
            let fullUrl :=
              if ¬(pyStartsWith href "http://" || pyStartsWith href "https://") then
                ujoin baseUrl href
              else href
            if classifyLink sourceName fullUrl then urls ++ [fullUrl] else urls
      if capReached cap urls'.length then urls'
      else collectUrls sourceName baseUrl cap ujoin rest urls'

def pySetListAux : List String → List String → List String
  | [], _ => []
  | x :: xs, seen =>
    if x ∈ seen then pySetListAux xs seen else x :: pySetListAux xs (x :: seen)

/-- `list(set(urls))`.  A Python set iterates in an implementation-defined
(hash-randomized) order; the properties proved below — distinctness,
length, membership — hold under any order, and this model fixes
first-occurrence order. -/
def pySetList (l : List String) : List String := pySetListAux l []

/-- `get_article_urls(source_name, source_config, ...)` from
`src/article_scraper.py`.  The fetch and CSS selection are external:
`links` holds the `href` of each anchor matched by the configured
selectors, in document order (`none` for an anchor with no href), and is
`none` overall when the fetch or parse raised — the except block leaves the
collected list empty.  `ujoin` is the stdlib `urljoin`, abstracted as a
parameter; `cap` is the resolved `source_config.get('max_articles',
max_articles)`. -/
def get_article_urls (sourceName : String) (links : Option (List (Option String)))
    (baseUrl : String) (cap : Option Nat) (ujoin : String → String → String) :
    List String :=
  let urls :=
    match links with
    | none => []
    | some ls => collectUrls sourceName baseUrl cap ujoin ls []
  let unique := pySetList urls
  if capTruthy cap && decide (cap.getD 0 < unique.length) then unique.take (cap.getD 0)
  else unique

/-- The claim reading of the classifier (for refinement comparison only):
classify every link with no early stop, deduplicate, and truncate only
after deduplication. -/
def get_article_urls_fromSpec (sourceName : String)
    (links : Option (List (Option String))) (baseUrl : String) (cap : Option Nat)
    (ujoin : String → String → String) : List String :=
  let urls :=
    match links with
    | none => []
    | some ls => collectUrls sourceName baseUrl none ujoin ls []
  let unique := pySetList urls
  if capTruthy cap && decide (cap.getD 0 < unique.length) then unique.take (cap.getD 0)
  else unique

/-!
## Concrete documents and configurations for witnesses and counterexamples
-/

/-- A ruleset with no configured selectors (all fallbacks in play). -/
def cfgNone : SourceConfig := ⟨none, none, none⟩

/-- A document with no date signal anywhere. -/
def cSoupEmpty : Soup :=
  { selectOne := fun _ => none, select := fun _ => [],
    findMeta := fun _ => none, timeElements := [], jsonLdScripts := [],
    findH1 := none, findTitleTag := none,
    selectClassContains := fun _ => [], allParagraphs := [] }

/-- An Open Graph published-time meta tag. -/
def cMetaConflict : Element :=
  { attrs := [("property", "article:published_time"),
      ("content", "2023-12-25T10:00:00Z")],
    text := "", tagTruthy := true, inNavFooterHeader := false }

/-- A document whose only date signal is the meta tag `cMetaConflict`. -/
def cSoupConflict : Soup :=
  { selectOne := fun _ => none, select := fun _ => [],
    findMeta := fun q =>
      if q = [("property", "article:published_time")] then some cMetaConflict
      else none,
    timeElements := [], jsonLdScripts := [],
    findH1 := none, findTitleTag := none,
    selectClassContains := fun _ => [], allParagraphs := [] }

/-- A document carrying a date-only JSON-LD `datePublished` and the meta tag
`cMetaConflict`. -/
def cSoupJsonLdDateOnly : Soup :=
  { selectOne := fun _ => none, select := fun _ => [],
    findMeta := fun q =>
      if q = [("property", "article:published_time")] then some cMetaConflict
      else none,
    timeElements := [],
    jsonLdScripts := [some (.obj [("datePublished", .str "2024-03-07")])],
    findH1 := none, findTitleTag := none,
    selectClassContains := fun _ => [], allParagraphs := [] }

/-- The listing links of the C6 scenario: one article URL repeated, then a
second article URL. -/
def cLinks : List (Option String) :=
  [some "http://e.com/x", some "http://e.com/x", some "http://e.com/y"]

def idJoin : String → String → String := fun _ h => h

section DateClaims

/-- **C4** (counterexample).  The claim says that for *every* URL whose path
contains a valid slash-delimited date, `extract_date` returns that date from
the URL strategy without evaluating lower-ranked strategies.  The URL
`/1000/01/01/2024/03/07/x` contains the valid date `/2024/03/07/`, but
`re.search` only surfaces the *first* match of each pattern — here the
invalid `/1000/01/01/` — and an invalid match falls through to the next
pattern, not to the next position, so `get_date_from_url` fails entirely
and the engine consults the meta cascade, returning the conflicting meta
date instead. -/
theorem extract_date_url_contains_claim_false :
    strContains "/1000/01/01/2024/03/07/x" "/2024/03/07/" = true ∧
      get_date_from_url "/1000/01/01/2024/03/07/x".data = none ∧
      extract_date cSoupConflict "/1000/01/01/2024/03/07/x" =
        .ok (some ⟨2023, 12, 25⟩) ∧
      Except.ok (some (⟨2023, 12, 25⟩ : PyDate)) ≠
        (Except.ok (some ⟨2024, 3, 7⟩) : Except Unit (Option PyDate)) := by
  refine ⟨by decide, by decide, by rfl, by intro h; simp at h⟩

/-- **C4** (amended).  When the URL date strategy itself succeeds — in
particular when the *leftmost* match of the slash-delimited pattern is a
valid date — `extract_date` returns that date for every document, so no
lower-ranked strategy is evaluated and a conflicting meta tag is ignored;
the first successful strategy short-circuits the rest. -/
theorem extract_date_url_short_circuits (soup : Soup) (url : String)
    (y m d : Nat) (dt : PyDate)
    (hm : searchO matchYmdSlashAt url.data = some (y, m, d))
    (hv : validateUrlDate y m d = some dt) :
    extract_date soup url = .ok (some dt) := by
  have hu : get_date_from_url url.data = some dt := by
    unfold get_date_from_url
    simp only [hm, hv]
    rfl
  unfold extract_date
  rw [hu]

/-- Witness for `extract_date_url_short_circuits`: `/2024/03/07/` beats the
conflicting meta tag of `cSoupConflict`. -/
theorem extract_date_url_short_circuits_witness :
    extract_date cSoupConflict "https://e.com/2024/03/07/story" =
      .ok (some ⟨2024, 3, 7⟩) :=
  extract_date_url_short_circuits cSoupConflict "https://e.com/2024/03/07/story"
    2024 3 7 ⟨2024, 3, 7⟩ (by decide) (by decide)

/-- **C5**.  When every strategy fails — the URL yields nothing, the
JSON-LD scan returns cleanly empty, and the meta, time and class cascades
all miss — `extract_date` reports undateable (`None`; the embedding has no
clock, and the result is exactly the cascade outcome, never a default), and
`extract_article_bs4` builds no record for the document. -/
theorem extract_date_undateable_no_record (soup : Soup) (url sourceName : String)
    (cfg : SourceConfig)
    (h1 : get_date_from_url url.data = none)
    (h2 : extract_date_from_json_ld soup.jsonLdScripts = .ok none)
    (h3 : metaStrategyGo soup metaTagQueries = none)
    (h4 : timeStrategyGo soup.timeElements = none)
    (h5 : classStrategyGo soup dateClassNames = none) :
    extract_date soup url = .ok none ∧
      extract_article_bs4 (some soup) url sourceName cfg = none := by
  have hd : extract_date soup url = .ok none := by
    unfold extract_date
    rw [h1, h2, h3, h4, h5]
  refine ⟨hd, ?_⟩
  simp only [extract_article_bs4, hd]

/-- Witness for `extract_date_undateable_no_record` on the signal-free
document. -/
theorem extract_date_undateable_no_record_witness :
    extract_date cSoupEmpty "https://x.com/plain" = .ok none ∧
      extract_article_bs4 (some cSoupEmpty) "https://x.com/plain" "src" cfgNone = none :=
  extract_date_undateable_no_record cSoupEmpty "https://x.com/plain" "src" cfgNone
    (by decide) (by rfl) (by rfl) (by rfl) (by rfl)

/-- **C7**.  Given an assembled record and a configured cutoff, the
assembler discards the record exactly when its date is strictly before the
cutoff. -/
theorem extract_article_cutoff (fetched : Option Soup) (url sourceName : String)
    (cfg : SourceConfig) (sd : PyDate) (rec : ArticleRec) (ad : PyDate)
    (hrec : extract_article_bs4 fetched url sourceName cfg = some rec)
    (hparse : strptimeYmdDash rec.date = some ad) :
    extract_article fetched url sourceName cfg (some sd) =
      (if ad.lt sd then .ok none else .ok (some rec)) := by
  simp only [extract_article, hrec, hparse]

/-- Witness for `extract_article_cutoff`: with cutoff 2023-06-01, the
article dated 2023-01-01 is discarded and the one dated 2023-07-01 is
kept. -/
theorem extract_article_cutoff_witness :
    extract_article (some cSoupEmpty) "https://x.com/2023/01/01/a" "src" cfgNone
        (some ⟨2023, 6, 1⟩) = .ok none ∧
      extract_article (some cSoupEmpty) "https://x.com/2023/07/01/a" "src" cfgNone
        (some ⟨2023, 6, 1⟩) =
        .ok (some ⟨"Unknown Title", "Unknown", "", "src",
          "https://x.com/2023/07/01/a", "2023-07-01"⟩) := by
  constructor
  · have h := extract_article_cutoff (some cSoupEmpty) "https://x.com/2023/01/01/a"
      "src" cfgNone ⟨2023, 6, 1⟩
      ⟨"Unknown Title", "Unknown", "", "src", "https://x.com/2023/01/01/a", "2023-01-01"⟩
      ⟨2023, 1, 1⟩ (by rfl) (by rfl)
    simpa using h
  · have h := extract_article_cutoff (some cSoupEmpty) "https://x.com/2023/07/01/a"
      "src" cfgNone ⟨2023, 6, 1⟩
      ⟨"Unknown Title", "Unknown", "", "src", "https://x.com/2023/07/01/a", "2023-07-01"⟩
      ⟨2023, 7, 1⟩ (by rfl) (by rfl)
    simpa using h

end DateClaims

section JsonLdClaims

/-- The graph items the claim scope allows: dicts whose `datePublished`, if
present, is a string without `T` (a non-string one would raise
`TypeError`). -/
def graphItemDateOnly : PyJson → Bool
  | .obj ifs =>
    match alookup "datePublished" ifs with
    | some (.str s) => ¬hasT s
    | some _ => false
    | none => true
  | _ => true

/-- A dict whose `datePublished`, if a string, contains no `T` (a date-only
value). -/
def probeDateOnly (fs : List (String × PyJson)) : Bool :=
  match alookup "datePublished" fs with
  | some (.str s) => ¬hasT s
  | _ => true

/-- A parsed dict in which every `datePublished` the JSON-LD strategy can
probe is a string not containing `T`. -/
def dictDateOnly : PyJson → Bool
  | .obj fs =>
    probeDateOnly fs &&
      (match alookup "article" fs with
       | some (.obj afs) => probeDateOnly afs
       | _ => true) &&
      (match alookup "@graph" fs with
       | some (.arr gs) => gs.all graphItemDateOnly
       | _ => true)
  | _ => true

/-- A script in claim scope: unparseable (skipped), or parsed data that
cannot raise (no empty top-level array) and carries only date-only
`datePublished` strings. -/
def scriptDateOnly : Option PyJson → Bool
  | none => true
  | some (.arr []) => false
  | some (.arr (x :: _)) => dictDateOnly x
  | some j => dictDateOnly j

theorem jsonLdDateFromStr_of_noT {s : String} (h : hasT s = false) :
    jsonLdDateFromStr s = none := by
  unfold jsonLdDateFromStr
  rw [h]
  rfl

theorem tryGraphItems_ok_none {gs : List PyJson}
    (h : gs.all graphItemDateOnly = true) : tryGraphItems gs = .ok none := by
  induction gs with
  | nil => rfl
  | cons item rest ih =>
    rw [List.all_cons, Bool.and_eq_true] at h
    have h2 := ih h.2
    have hi := h.1
    cases item with
    | obj ifs =>
      simp only [graphItemDateOnly] at hi
      cases hdp : alookup "datePublished" ifs with
      | none => simp only [tryGraphItems, hdp, h2]
      | some v =>
        simp only [hdp] at hi
        cases v with
        | str s =>
          simp only [decide_eq_true_eq] at hi
          have hT : hasT s = false := by
            cases hht : hasT s with
            | false => rfl
            | true => exact absurd hht hi
          simp only [tryGraphItems, hdp, jsonLdDateFromStr_of_noT hT, h2]
        | num n => simp at hi
        | jbool b => simp at hi
        | null => simp at hi
        | arr xs => simp at hi
        | obj ofs => simp at hi
    | str s => simp only [tryGraphItems, h2]
    | num n => simp only [tryGraphItems, h2]
    | jbool b => simp only [tryGraphItems, h2]
    | null => simp only [tryGraphItems, h2]
    | arr xs => simp only [tryGraphItems, h2]

theorem noT_of_decide {s : String} (h : decide ¬hasT s = true = true) :
    hasT s = false := by
  rw [decide_eq_true_eq] at h
  cases hht : hasT s with
  | false => rfl
  | true => exact absurd hht h

theorem dpProbe_none {fs : List (String × PyJson)}
    (h : probeDateOnly fs = true) : dpProbe fs = none := by
  unfold probeDateOnly at h
  unfold dpProbe
  cases hdp : alookup "datePublished" fs with
  | none => rfl
  | some v =>
    simp only [hdp] at h
    cases v with
    | str s => exact jsonLdDateFromStr_of_noT (noT_of_decide h)
    | num n => rfl
    | jbool b => rfl
    | null => rfl
    | arr xs => rfl
    | obj ofs => rfl

theorem jsonLdFromDict_ok_none {j : PyJson} (h : dictDateOnly j = true) :
    jsonLdFromDict j = .ok none := by
  cases j with
  | obj fs =>
    simp only [dictDateOnly, Bool.and_eq_true] at h
    obtain ⟨⟨h1, h2⟩, h3⟩ := h
    have e1 : dpProbe fs = none := dpProbe_none h1
    have e2 : (match alookup "article" fs with
        | some (.obj afs) => dpProbe afs
        | _ => none) = (none : Option PyDate) := by
      cases har : alookup "article" fs with
      | none => rfl
      | some v =>
        cases v with
        | obj afs =>
          simp only [har] at h2
          exact dpProbe_none h2
        | str s => rfl
        | num n => rfl
        | jbool b => rfl
        | null => rfl
        | arr xs => rfl
    simp only [jsonLdFromDict, e1, e2]
    cases hg : alookup "@graph" fs with
    | none => rfl
    | some v =>
      cases v with
      | arr gs =>
        simp only [hg] at h3
        cases gs with
        | nil => rfl
        | cons g gs' => exact tryGraphItems_ok_none h3
      | str s => rfl
      | num n => rfl
      | jbool b => rfl
      | null => rfl
      | obj ofs => rfl
  | str s => rfl
  | num n => rfl
  | jbool b => rfl
  | null => rfl
  | arr xs => rfl

theorem extract_date_from_json_ld_ok_none {scripts : List (Option PyJson)}
    (h : scripts.all scriptDateOnly = true) :
    extract_date_from_json_ld scripts = .ok none := by
  induction scripts with
  | nil => rfl
  | cons s rest ih =>
    rw [List.all_cons, Bool.and_eq_true] at h
    cases s with
    | none => exact ih h.2
    | some j =>
      have hd : jsonLdFromData j = .ok none := by
        have hs := h.1
        cases j with
        | arr xs =>
          cases xs with
          | nil => simp [scriptDateOnly] at hs
          | cons x rest' =>
            unfold jsonLdFromData
            exact jsonLdFromDict_ok_none (by simpa [scriptDateOnly] using hs)
        | str s => exact jsonLdFromDict_ok_none (by simpa [scriptDateOnly] using hs)
        | num n => exact jsonLdFromDict_ok_none (by simpa [scriptDateOnly] using hs)
        | jbool b => exact jsonLdFromDict_ok_none (by simpa [scriptDateOnly] using hs)
        | null => exact jsonLdFromDict_ok_none (by simpa [scriptDateOnly] using hs)
        | obj fs => exact jsonLdFromDict_ok_none (by simpa [scriptDateOnly] using hs)
      unfold extract_date_from_json_ld
      rw [hd]
      exact ih h.2

/-- **C10**.  The structured-data strategy only accepts `datePublished`
string values containing the `T` separator: when every probeable
`datePublished` is a date-only string (no `T`) and the URL strategy missed,
the JSON-LD strategy yields nothing and `extract_date` falls through to the
meta-tag cascade and the later strategies. -/
theorem json_ld_requires_T (soup : Soup) (url : String)
    (hall : soup.jsonLdScripts.all scriptDateOnly = true)
    (hurl : get_date_from_url url.data = none) :
    extract_date_from_json_ld soup.jsonLdScripts = .ok none ∧
      extract_date soup url =
        (match metaStrategyGo soup metaTagQueries with
         | some d => .ok (some d)
         | none =>
           match timeStrategyGo soup.timeElements with
           | some d => .ok (some d)
           | none => .ok (classStrategyGo soup dateClassNames)) := by
  have hj := extract_date_from_json_ld_ok_none hall
  refine ⟨hj, ?_⟩
  unfold extract_date
  rw [hurl, hj]

/-- Witness for `json_ld_requires_T`: the date-only JSON-LD value
`2024-03-07` is ignored and the document is dated by its meta tag. -/
theorem json_ld_requires_T_witness :
    extract_date_from_json_ld cSoupJsonLdDateOnly.jsonLdScripts = .ok none ∧
      extract_date cSoupJsonLdDateOnly "https://x.com/plain" =
        (match metaStrategyGo cSoupJsonLdDateOnly metaTagQueries with
         | some d => .ok (some d)
         | none =>
           match timeStrategyGo cSoupJsonLdDateOnly.timeElements with
           | some d => .ok (some d)
           | none => .ok (classStrategyGo cSoupJsonLdDateOnly dateClassNames)) :=
  json_ld_requires_T cSoupJsonLdDateOnly "https://x.com/plain" (by rfl) (by decide)

end JsonLdClaims

section ClassifierClaims

theorem pySetListAux_props :
    ∀ (l seen : List String),
      (pySetListAux l seen).Nodup ∧ ∀ x ∈ pySetListAux l seen, x ∉ seen := by
  intro l
  induction l with
  | nil => simp [pySetListAux]
  | cons x xs ih =>
    intro seen
    by_cases hx : x ∈ seen
    · rw [pySetListAux, if_pos hx]
      exact ih seen
    · rw [pySetListAux, if_neg hx]
      have h := ih (x :: seen)
      refine ⟨?_, ?_⟩
      · rw [List.nodup_cons]
        exact ⟨fun hmem => (h.2 x hmem) (List.mem_cons_self x seen), h.1⟩
      · intro y hy
        rcases List.mem_cons.mp hy with rfl | hy'
        · exact hx
        · exact fun hseen => (h.2 y hy') (List.mem_cons_of_mem _ hseen)

theorem pySetList_nodup (l : List String) : (pySetList l).Nodup :=
  (pySetListAux_props l []).1

/-- **C6** (counterexample).  The claim says the scan classifies all links,
deduplicates, and truncates to the cap only after deduplication.  With the
links `[x, x, y]` and cap 2, the loop stops as soon as the *pre-dedup* list
reaches two entries — the duplicate counts against the cap — so `y` is
never classified and the result is `[x]`, where the claim reading yields
`[x, y]`. -/
theorem get_article_urls_truncate_claim_false :
    get_article_urls "site" (some cLinks) "http://e.com" (some 2) idJoin =
      ["http://e.com/x"] ∧
      get_article_urls_fromSpec "site" (some cLinks) "http://e.com" (some 2) idJoin =
        ["http://e.com/x", "http://e.com/y"] ∧
      get_article_urls "site" (some cLinks) "http://e.com" (some 2) idJoin ≠
        get_article_urls_fromSpec "site" (some cLinks) "http://e.com" (some 2) idJoin := by
  refine ⟨by decide, by decide, by decide⟩

/-- **C6** (amended).  The classifier output still contains no duplicate
URLs and, under a positive cap, at most `cap` entries; classification is
applied link by link before deduplication, and the deduplicated list is
truncated to the cap — but the scan additionally stops early once the raw
(pre-dedup) list reaches the cap, so later links may never be classified. -/
theorem get_article_urls_nodup_cap (sourceName : String)
    (links : Option (List (Option String))) (baseUrl : String) (cap : Option Nat)
    (ujoin : String → String → String) :
    (get_article_urls sourceName links baseUrl cap ujoin).Nodup ∧
      ∀ n, cap = some n → n ≠ 0 →
        (get_article_urls sourceName links baseUrl cap ujoin).length ≤ n := by
  unfold get_article_urls
  constructor
  · by_cases h : (capTruthy cap &&
        decide (cap.getD 0 < (pySetList (match links with
          | none => []
          | some ls => collectUrls sourceName baseUrl cap ujoin ls [])).length)) = true
    · rw [if_pos h]
      exact (pySetList_nodup _).sublist (List.take_sublist _ _)
    · rw [if_neg h]
      exact pySetList_nodup _
  · intro n hc hn
    subst hc
    by_cases h : (capTruthy (some n) &&
        decide ((some n : Option Nat).getD 0 < (pySetList (match links with
          | none => []
          | some ls => collectUrls sourceName baseUrl (some n) ujoin ls [])).length)) = true
    · rw [if_pos h]
      exact List.length_take_le n _
    · rw [if_neg h]
      rw [Bool.and_eq_true, not_and_or] at h
      rcases h with h | h
      · exact absurd (by simpa [capTruthy] using hn) h
      · simpa using Nat.le_of_not_lt (by simpa using h)

/-- Witness for `get_article_urls_nodup_cap` at the concrete capped
listing. -/
theorem get_article_urls_nodup_cap_witness :
    (get_article_urls "site" (some cLinks) "http://e.com" (some 2) idJoin).Nodup ∧
      ∀ n, (some 2 : Option Nat) = some n → n ≠ 0 →
        (get_article_urls "site" (some cLinks) "http://e.com" (some 2) idJoin).length ≤ n :=
  get_article_urls_nodup_cap "site" (some cLinks) "http://e.com" (some 2) idJoin

end ClassifierClaims
